import Mathlib

/-!
# hyrpdf: a shallow embedding of `hyrpdf.go`

The program logs into a CAPTCHA-gated site, crawls two levels of tables and
downloads the files it finds.  This development embeds the functions of
`hyrpdf.go` as pure Lean functions over an explicit environment (the remote
site, the recognition service, the file system) and proves properties of them.

Conventions of the embedding:

* a Go `string` is a sequence of bytes, `GoString := List Nat`;
* a Go pointer `*string` is an `Option GoString` (`nil` is `none`);
* a Go `error` value is an `Option GoError` (`nil` is `none`);
* a function that talks to the outside world takes the replies of the outside
  world as arguments and returns, next to its Go results, the requests or the
  list of effects it performed, in order;
* a loop that need not end runs on fuel, the number of turns it may take; the
  loops of the libraries (`path.Clean`, `fmt`) get the fuel they cannot use up.
-/

namespace Hyrpdf

/-! ## Strings -/

/-- A Go string: an immutable sequence of bytes. -/
abbrev GoString := List Nat

/-- The bytes of an ASCII literal. -/
def ascii (s : String) : GoString := s.toList.map Char.toNat

/-- A Go error value that is not nil; only the message is kept. -/
abbrev GoError := String

/-- Go `strings.ToUpper` on one byte of an ASCII string. -/
def upperByte (b : Nat) : Nat := if 97 ≤ b ∧ b ≤ 122 then b - 32 else b

/-- The lower-case form of one byte of an ASCII string. -/
def lowerByte (b : Nat) : Nat := if 65 ≤ b ∧ b ≤ 90 then b + 32 else b

/-- Go `strings.ToUpper`, for the ASCII names `net/http` accepts as cookie names. -/
def ToUpper (s : GoString) : GoString := s.map upperByte

/-! ## Regular expressions (`regexp.MatchString`) -/

/-- The fragment of Go regular expressions that `hyrpdf.go` uses. -/
inductive Regexp where
  | emptyMatch : Regexp
  | beginText : Regexp
  | endText : Regexp
  | charRange (lo hi : Nat) : Regexp
  | concat (a b : Regexp) : Regexp
deriving Repr

/-- The expression `r{n}`: exactly `n` copies of `r`. -/
def Regexp.repeatN (r : Regexp) : Nat → Regexp
  | 0 => Regexp.emptyMatch
  | n + 1 => Regexp.concat r (Regexp.repeatN r n)

/-- All positions at which a match of `r` that starts at position `i` of
`text` can end. -/
def Regexp.ends (text : GoString) : Regexp → Nat → List Nat
  | Regexp.emptyMatch, i => [i]
  | Regexp.beginText, i => if i = 0 then [i] else []
  | Regexp.endText, i => if i = text.length then [i] else []
  | Regexp.charRange lo hi, i =>
    match text[i]? with
    | some b => if lo ≤ b ∧ b ≤ hi then [i + 1] else []
    | none => []
  | Regexp.concat a b, i => (Regexp.ends text a i).flatMap (fun j => Regexp.ends text b j)

/-- The compiled form of the pattern `^[0-9]{4}$`. -/
def captchaPattern : Regexp :=
  Regexp.concat Regexp.beginText
    (Regexp.concat (Regexp.repeatN (Regexp.charRange 48 57) 4) Regexp.endText)

/-- Go `regexp.MatchString`: whether the text contains any match of the
expression.  The error result is non-nil only when the pattern does not
compile; the pattern here is a constant that compiles. -/
def MatchString (re : Regexp) (s : GoString) : Bool × Option GoError :=
  ((List.range (s.length + 1)).any (fun i => !(Regexp.ends s re i).isEmpty), none)

/-! ## HTTP -/

/-- A cookie of a response, as returned by `resp.Cookies()`. -/
structure Cookie where
  Name : GoString
  Value : GoString
deriving DecidableEq, Repr

/-- The part of an `http.Response` the program reads: its cookies and its
body.  Reading the body yields the bytes `Body` and then, when `BodyErr` is
set, a read error. -/
structure Response where
  Cookies : List Cookie
  Body : GoString
  BodyErr : Option GoError
deriving DecidableEq, Repr

/-- The form sent by `postLogin` (a `url.Values` with three keys). -/
structure LoginForm where
  username : GoString
  password : GoString
  verifyCode : GoString
deriving DecidableEq, Repr

/-- An `http.Request`: method, URL, headers in the order they were set, and
the login form when there is a body. -/
structure Request where
  Method : GoString
  URL : GoString
  Header : List (GoString × GoString)
  Form : Option LoginForm
deriving DecidableEq, Repr

/-- Go `http.NewRequest`; it cannot fail for the constant methods and URLs of
this program. -/
def NewRequest (method url : GoString) (form : Option LoginForm) : Request :=
  { Method := method, URL := url, Header := [], Form := form }

/-- The helper of `CanonicalMIMEHeaderKey`: `upper` tells whether the next
letter starts a word. -/
def canonicalKeyFrom : Bool → GoString → GoString
  | _, [] => []
  | upper, b :: rest =>
    (if upper then upperByte b else lowerByte b) :: canonicalKeyFrom (b = 45) rest

/-- Go `textproto.CanonicalMIMEHeaderKey` for a key made of letters and
hyphens: the first letter and every letter after a hyphen in upper case, the
other letters in lower case. -/
def CanonicalMIMEHeaderKey (s : GoString) : GoString := canonicalKeyFrom true s

/-- Go `req.Header.Set`: replace the values of the canonical form of the key. -/
def Request.setHeader (req : Request) (key value : GoString) : Request :=
  { req with
    Header := req.Header.filter (fun kv => kv.1 ≠ CanonicalMIMEHeaderKey key) ++
      [(CanonicalMIMEHeaderKey key, value)] }

/-- Go `ioutil.ReadAll(resp.Body)`. -/
def ReadAll (resp : Response) : GoString × Option GoError := (resp.Body, resp.BodyErr)

/-- The source function `getPHPSESSID`: the value of the first cookie whose
upper-cased name is `PHPSESSID`, or nil. -/
def getPHPSESSID (resp : Response) : Option GoString :=
  match resp.Cookies.find? (fun cookie => ToUpper cookie.Name = ascii "PHPSESSID") with
  | some cookie => some cookie.Value
  | none => none

/-! ## CAPTCHA solving -/

/-- The address of the CAPTCHA image. -/
def captchaURL : GoString := ascii "http://www.hengyirong.com/site/captcha/"

/-- The address of the login endpoint. -/
def loginURL : GoString := ascii "http://www.hengyirong.com/site/login.html"

/-- An HTTP round trip: the reply of the remote site to a request, or a
transport error. -/
abbrev Transport := Request → Except GoError Response

/-- The recognition service `OCR.ParseImage`: a result list and an error. -/
abbrev Recognizer := GoString → List GoString × Option GoError

/-- The three results of `solveCaptcha`, with the request it issued. -/
structure SolveResult where
  solved : Option GoString
  sess : Option GoString
  err : Option GoError
  request : Request
deriving DecidableEq, Repr

/-- The part of `solveCaptcha` after `OCR.ParseImage`: shape check, session
cookie and the final error assignment. -/
def solveCaptchaCheck (resp : Response) (results : List GoString) (err : Option GoError)
    (req : Request) : SolveResult :=
  match err, results with
  | none, first :: _ =>
    match MatchString captchaPattern first with
    | (_, some e) => { solved := none, sess := none, err := some e, request := req }
    | (true, none) =>
      { solved := some first, sess := getPHPSESSID resp, err := none, request := req }
    | (false, none) =>
      { solved := none, sess := none, err := some "无法破解验证码，重试中", request := req }
  | _, _ => { solved := none, sess := none, err := some "无法破解验证码，重试中", request := req }

/-- The source function `solveCaptcha`. -/
def solveCaptcha (client : Transport) (ocr : Recognizer) (session : Option GoString) :
    SolveResult :=
  let req := NewRequest (ascii "GET") captchaURL none
  let req := match session with
    | some s => req.setHeader (ascii "Cookie") (ascii "PHPSESSID=" ++ s)
    | none => req
  match client req with
  | Except.error e => { solved := none, sess := none, err := some e, request := req }
  | Except.ok resp =>
    match ReadAll resp with
    | (_, some e) => { solved := none, sess := none, err := some e, request := req }
    | (image, none) =>
      let (results, err) := ocr image
      solveCaptchaCheck resp results err req

/-! ## Login -/

/-- The request `postLogin` builds. -/
def postLoginRequest (username password captcha session : GoString) : Request :=
  let password := if password.length > 12 then password.take 12 else password
  let reqBody : LoginForm :=
    { username := username, password := password, verifyCode := captcha }
  let req := NewRequest (ascii "POST") loginURL (some reqBody)
  let req := req.setHeader (ascii "content-type") (ascii "application/x-www-form-urlencoded")
  req.setHeader (ascii "cookie") (ascii "PHPSESSID=" ++ session)

/-- The source function `postLogin`: the new session and the error. -/
def postLogin (roundTrip : Transport) (username password captcha session : GoString) :
    Option GoString × Option GoError :=
  match roundTrip (postLoginRequest username password captcha session) with
  | Except.error e => (none, some e)
  | Except.ok resp =>
    match getPHPSESSID resp with
    | some newSess => (some newSess, none)
    | none => (none, some "用户名、密码或验证码错误")

/-- What the outside world answers during `login`, per iteration of its loop
(counted from 0): the site's reply to the CAPTCHA request, the recognition
service's reply, and the site's reply to the login request. -/
structure LoginWorld where
  captcha : Nat → Transport
  ocr : Nat → Recognizer
  login : Nat → Transport

/-- An effect of `login`, in the order performed. -/
inductive LoginEvent where
  | captchaFetch (req : Request) : LoginEvent
  | loginPost (req : Request) : LoginEvent
  | logged (err : GoError) : LoginEvent
  | sleep (seconds : Nat) : LoginEvent
deriving DecidableEq, Repr

/-- How a run of `login` stands: it returned the pointer `newSess`, it stopped
on a nil pointer dereference, or its loop is still running. -/
inductive LoginOutcome where
  | returned (newSess : Option GoString) : LoginOutcome
  | nilDereference : LoginOutcome
  | running : LoginOutcome
deriving DecidableEq, Repr

/-- A run of `login`: how it stands and the effects so far. -/
structure LoginRun where
  outcome : LoginOutcome
  events : List LoginEvent
deriving DecidableEq, Repr

/-- The loop of `login` from iteration `i` on, for at most `fuel` iterations,
after the effects `events`. -/
def loginLoop (w : LoginWorld) (username password : GoString) :
    Nat → Nat → List LoginEvent → LoginRun
  | 0, _, events => { outcome := LoginOutcome.running, events := events }
  | fuel + 1, i, events =>
    let r := solveCaptcha (w.captcha i) (w.ocr i) none
    let events := events ++ [LoginEvent.captchaFetch r.request]
    match r.err with
    | some err =>
      loginLoop w username password fuel (i + 1) (events ++ [LoginEvent.logged err])
    | none =>
      match r.solved, r.sess with
      | some solved, some sess =>
        let events :=
          events ++ [LoginEvent.loginPost (postLoginRequest username password solved sess)]
        match postLogin (w.login i) username password solved sess with
        | (_, some err) =>
          loginLoop w username password fuel (i + 1)
            (events ++ [LoginEvent.logged err, LoginEvent.sleep 2])
        | (newSess, none) => { outcome := LoginOutcome.returned newSess, events := events }
      | _, _ => { outcome := LoginOutcome.nilDereference, events := events }

/-- The source function `login`, run for at most `fuel` iterations of its loop. -/
def login (w : LoginWorld) (username password : GoString) (fuel : Nat) : LoginRun :=
  loginLoop w username password fuel 0 []

/-- The number of CAPTCHA requests among the effects. -/
def captchaFetches (events : List LoginEvent) : Nat :=
  events.countP (fun e => match e with | LoginEvent.captchaFetch _ => true | _ => false)

/-- The number of login POSTs among the effects. -/
def loginPosts (events : List LoginEvent) : Nat :=
  events.countP (fun e => match e with | LoginEvent.loginPost _ => true | _ => false)

/-- The shape the spec asks of a solved text: exactly four bytes, each an
ASCII digit. -/
def IsFourAsciiDigits (s : GoString) : Prop :=
  s.length = 4 ∧ ∀ b ∈ s, 48 ≤ b ∧ b ≤ 57

instance (s : GoString) : Decidable (IsFourAsciiDigits s) := by
  unfold IsFourAsciiDigits
  infer_instance

/-! ## Concrete environments used in examples -/

/-- A CAPTCHA response that carries an image and sets no cookie. -/
def captchaReplyWithoutCookie : Response :=
  { Cookies := [], Body := [1], BodyErr := none }

/-- A login response that grants the session `new`. -/
def loginReplyGranting : Response :=
  { Cookies := [{ Name := ascii "PHPSESSID", Value := ascii "new" }], Body := [],
    BodyErr := none }

/-- A site whose CAPTCHA response sets no cookie, with a recognition service
that reads every image as `1234` and a login endpoint that accepts. -/
def worldWithoutSessionCookie : LoginWorld :=
  { captcha := fun _ _ => Except.ok captchaReplyWithoutCookie
    ocr := fun _ _ => ([ascii "1234"], none)
    login := fun _ _ => Except.ok loginReplyGranting }

/-! ## Paths (`path.Clean`, `path.Join`, `path.Dir`) -/

/-- The write index after the `..` case of `path.Clean` has backed up over the
last element of `out`, starting from index `w`: the loop
`for out.w > dotdot && out.index(out.w) != '/' { out.w-- }`. -/
def backUp (out : GoString) (dotdot : Nat) : Nat → Nat
  | 0 => 0
  | w + 1 => if w + 1 > dotdot ∧ out[w + 1]? ≠ some 47 then backUp out dotdot w else w + 1

/-- The `..` case of `path.Clean`: back up over the last element of the output
when there is one above `dotdot`; else, for a path that is not rooted, append
a `..` element and move `dotdot` behind it; else leave the output as it is.
The result is the new output and the new `dotdot`. -/
def dotdotElement (rooted : Bool) (out : GoString) (dotdot : Nat) : GoString × Nat :=
  if out.length > dotdot then
    (out.take (backUp out dotdot (out.length - 1)), dotdot)
  else if !rooted then
    ((if out.length > 0 then out ++ [47] else out) ++ [46, 46],
      ((if out.length > 0 then out ++ [47] else out) ++ [46, 46]).length)
  else
    (out, dotdot)

/-- The start of the default case of `path.Clean`: add a slash if needed. -/
def addSlash (rooted : Bool) (out : GoString) : GoString :=
  if (rooted ∧ out.length ≠ 1) ∨ (!rooted ∧ out.length ≠ 0) then out ++ [47] else out

/-- The main loop of Go `path.Clean` over the unread part `rest` of the path,
with the output written so far and the index `dotdot` below which the output
cannot be backed up. -/
def cleanLoop (rooted : Bool) : Nat → GoString → GoString → Nat → GoString
  | 0, _, out, _ => out
  | _ + 1, [], out, _ => out
  | fuel + 1, b :: rest, out, dotdot =>
    if b = 47 then
      -- empty path element
      cleanLoop rooted fuel rest out dotdot
    else if b = 46 ∧ (rest = [] ∨ rest.head? = some 47) then
      -- . element
      cleanLoop rooted fuel rest out dotdot
    else if b = 46 ∧ rest.head? = some 46 ∧ (rest.tail = [] ∨ rest.tail.head? = some 47) then
      -- .. element: remove to last /
      cleanLoop rooted fuel rest.tail (dotdotElement rooted out dotdot).1
        (dotdotElement rooted out dotdot).2
    else
      -- real path element: add slash if needed, copy element
      cleanLoop rooted fuel ((b :: rest).dropWhile (fun c => c ≠ 47))
        (addSlash rooted out ++ (b :: rest).takeWhile (fun c => c ≠ 47)) dotdot

/-- Go `path.Clean`. -/
def Clean (path : GoString) : GoString :=
  if path = [] then [46]
  else
    let rooted : Bool := path.head? = some 47
    let out :=
      if rooted then cleanLoop rooted path.length path.tail [47] 1
      else cleanLoop rooted path.length path [] 0
    if out.length = 0 then [46] else out

/-- Go `path.Join`: the elements from the first non-empty one on, joined by
slashes and cleaned; the empty string when all are empty. -/
def Join (elem : List GoString) : GoString :=
  match elem.dropWhile (fun e => e = []) with
  | [] => []
  | e :: es => Clean ([47].intercalate (e :: es))

/-- The index just after the last slash of the path (Go `strings.LastIndex`
plus one), 0 when there is none. -/
def afterLastSlash : GoString → Nat
  | [] => 0
  | b :: rest =>
    if 47 ∈ rest then afterLastSlash rest + 1
    else if b = 47 then 1 else 0

/-- Go `path.Dir`: all but the last element of the path, cleaned. -/
def Dir (path : GoString) : GoString := Clean (path.take (afterLastSlash path))

/-! ## Formatting (`fmt.Sprintf("%03d.%s", index, name)`) -/

/-- The digit loop of `fmt` for a non-negative integer, most significant digit
first. -/
def decimalLoop : Nat → Nat → GoString → GoString
  | 0, _, acc => acc
  | fuel + 1, u, acc =>
    if u < 10 then (48 + u) :: acc
    else decimalLoop fuel (u / 10) ((48 + u % 10) :: acc)

/-- The decimal digits of a non-negative integer. -/
def decimal (u : Nat) : GoString := decimalLoop (u + 1) u []

/-- The verb `%03d`: the decimal digits, padded with zeros on the left to a
width of 3. -/
def fmt03d (index : Nat) : GoString :=
  List.replicate (3 - (decimal index).length) 48 ++ decimal index

/-- The call `fmt.Sprintf("%03d.%s", index, name)`. -/
def SprintfIndexName (index : Nat) (name : GoString) : GoString :=
  fmt03d index ++ [46] ++ name

/-! ## The crawl in `main` -/

/-- Go `Selection.Each`: call `f` on every element of the selection, with its
index, threading the variables `f` assigns to. -/
def eachFrom {α σ : Type} (f : Nat → α → σ → σ) : Nat → List α → σ → σ
  | _, [], st => st
  | i, x :: xs, st => eachFrom f (i + 1) xs (f i x st)

/-- Go `Selection.Each`, from index 0. -/
def Each {α σ : Type} (sel : List α) (f : Nat → α → σ → σ) (st : σ) : σ :=
  eachFrom f 0 sel st

/-- What `main` reads from a `tr` of the listing page. -/
structure ListingRow where
  /-- the result of `tr.Find("a.sx_see").Attr("href")` -/
  seeHref : Option GoString
  /-- the result of `tr.Find("td:first-child").Text()` -/
  firstCell : GoString
deriving DecidableEq, Repr

/-- What `main` reads from a `tr` of a record page. -/
structure RecordRow where
  /-- the result of `tr.Find("td:last-child a").Attr("href")` -/
  lastCellHref : Option GoString
  /-- the result of `tr.Find("td:first-child").Text()` -/
  firstCell : GoString
deriving DecidableEq, Repr

/-- The remote site as `getDocument` sees it with the session of the run: the
listing page `/tender.html` as the `tr` selections of its `.sx_tab` tables,
each record page as its `.H_table_style tr` selection, and each sub-record
page as the `src` of its `iframe`, if any. -/
structure Site where
  listing : Except GoError (List (List ListingRow))
  record : GoString → Except GoError (List RecordRow)
  detail : GoString → Except GoError (Option GoString)

/-- A pair `[2]string` of a link and a local path. -/
abbrev Pair := GoString × GoString

/-- The records `main` collects from the listing page. -/
def collectRecords (username : GoString) (tabs : List (List ListingRow)) : List Pair :=
  Each tabs (fun _ tab records =>
    Each tab (fun index tr records =>
      if index = 0 then records
      else
        match tr.seeHref with
        | some href => records ++ [(href, Join [username, tr.firstCell])]
        | none => records) records) []

/-- The sub-records `main` collects from one record page. -/
def collectRecordDetails (record : Pair) (rows : List RecordRow) (details : List Pair) :
    List Pair :=
  Each rows (fun index tr details =>
    if index = 0 then details
    else
      match tr.lastCellHref with
      | some href =>
        details ++ [(href, Join [record.2, SprintfIndexName index tr.firstCell])]
      | none => details) details

/-- The sub-records `main` collects from all records.  The library call
`gotogether.Enumerable(records).Each` is taken to visit the records in order. -/
def collectDetails (site : Site) (records : List Pair) : List Pair :=
  records.foldl (fun details record =>
    match site.record record.1 with
    | Except.error _ => details
    | Except.ok rows => collectRecordDetails record rows details) []

/-- The producer `AddJob`: the jobs it sends on `jobs` and the errors it sends
on `errs`. -/
def AddJob (site : Site) (details : List Pair) : List Pair × List GoError :=
  details.foldl (fun (st : List Pair × List GoError) detail =>
    match site.detail detail.1 with
    | Except.error err => (st.1, st.2 ++ [err])
    | Except.ok (some file) => (st.1 ++ [(file, detail.2 ++ ascii ".pdf")], st.2)
    | Except.ok none => st) ([], [])

/-- The jobs a run of `main` emits for a site, once logged in; none when the
listing page cannot be fetched. -/
def mainJobs (site : Site) (username : GoString) : List Pair :=
  match site.listing with
  | Except.error _ => []
  | Except.ok tabs => (AddJob site (collectDetails site (collectRecords username tabs))).1

/-- The local path of the job for the sub-record `name` at row `index` of the
record `id`: the expressions `path.Join(username, id)`,
`path.Join(record[1], fmt.Sprintf("%03d.%s", index, name))` and
`detail[1] + ".pdf"` of `main` composed. -/
def jobLocalPath (username id : GoString) (index : Nat) (name : GoString) : GoString :=
  Join [Join [username, id], SprintfIndexName index name] ++ ascii ".pdf"

/-- A plain path element: not empty, without a slash, and neither `.` nor
`..`. -/
def IsPlainSegment (s : GoString) : Prop :=
  s ≠ [] ∧ 47 ∉ s ∧ s ≠ [46] ∧ s ≠ [46, 46]

instance (s : GoString) : Decidable (IsPlainSegment s) := by
  unfold IsPlainSegment
  infer_instance

/-- The number a string of decimal digits denotes. -/
def digitsValue (ds : GoString) : Nat := ds.foldl (fun v b => 10 * v + (b - 48)) 0

/-- The records the spec describes for a listing page: the rows of each table
other than its first (header) row that carry a detail link, in document order,
each paired with the path built from the user name and the record id. -/
def listedRecords (username : GoString) (tabs : List (List ListingRow)) : List Pair :=
  (tabs.flatMap (fun tab => tab.drop 1)).filterMap
    (fun tr => tr.seeHref.map (fun href => (href, Join [username, tr.firstCell])))

/-- The sub-records of one record page: the rows other than the first that
carry a link, with their row index. -/
def recordDetails (recordPath : GoString) (rows : List RecordRow) : List Pair :=
  ((rows.enumFrom 0).drop 1).filterMap
    (fun p => p.2.lastCellHref.map
      (fun href => (href, Join [recordPath, SprintfIndexName p.1 p.2.firstCell])))

/-- The rows of the listing page that `main` turns into records. -/
def linkedRows (tabs : List (List ListingRow)) : List ListingRow :=
  (tabs.flatMap (fun tab => tab.drop 1)).filter (fun tr => tr.seeHref.isSome)

/-! ## The file system and `download` -/

/-- What a path of the file system holds. -/
inductive Entry where
  | file (data : GoString) : Entry
  | dir : Entry
deriving DecidableEq, Repr

/-- The entry a table of entries gives for a path; the working directory `.`
and the root `/` always exist. -/
def lookupIn (entries : GoString → Option Entry) (p : GoString) : Option Entry :=
  if p = [46] ∨ p = [47] then some Entry.dir else entries p

/-- The file system: what each path holds, if anything.  Paths are looked up
as written, and whatever exists lies in a directory that exists. -/
structure FileSystem where
  entries : GoString → Option Entry
  parentIsDir : ∀ p e, entries p = some e → lookupIn entries (Dir p) = some Entry.dir

/-- The entry at a path. -/
def FileSystem.lookup (fs : FileSystem) (p : GoString) : Option Entry :=
  lookupIn fs.entries p

/-- The file system with the entry `e` at `p`; nothing changes unless `p` lies
in a directory and no directory is replaced by a file. -/
def FileSystem.put (fs : FileSystem) (p : GoString) (e : Entry) : FileSystem :=
  if h : fs.lookup (Dir p) = some Entry.dir ∧ (fs.lookup p = some Entry.dir → e = Entry.dir) then
    { entries := fun q => if q = p then some e else fs.entries q
      parentIsDir := by
        intro q e2 hq
        beta_reduce at hq
        have hparent : lookupIn fs.entries (Dir q) = some Entry.dir := by
          by_cases hqp : q = p
          · rw [hqp]
            exact h.1
          · rw [if_neg hqp] at hq
            exact fs.parentIsDir q e2 hq
        unfold lookupIn at hparent ⊢
        by_cases hs : Dir q = [46] ∨ Dir q = [47]
        · rw [if_pos hs]
        · rw [if_neg hs] at hparent ⊢
          beta_reduce
          by_cases hd : Dir q = p
          · rw [if_pos hd]
            have hp : fs.lookup p = some Entry.dir := by
              unfold FileSystem.lookup lookupIn
              rw [← hd, if_neg hs]
              exact hparent
            rw [h.2 hp]
          · rw [if_neg hd]
            exact hparent }
  else fs

/-- The file system with a new directory at `p`. -/
def FileSystem.addDir (fs : FileSystem) (p : GoString) : FileSystem :=
  fs.put p Entry.dir

/-- The file system with the file at `p` holding `data`. -/
def FileSystem.writeFile (fs : FileSystem) (p data : GoString) : FileSystem :=
  fs.put p (Entry.file data)

/-- Go `os.Stat`: the error is nil exactly when the path exists. -/
def Stat (fs : FileSystem) (p : GoString) : Option GoError :=
  match fs.lookup p with
  | some _ => none
  | none => some "no such file or directory"

/-- Go `os.Mkdir`: create one directory inside an existing directory. -/
def Mkdir (fs : FileSystem) (p : GoString) : FileSystem × Option GoError :=
  match fs.lookup p with
  | some _ => (fs, some "file exists")
  | none =>
    match fs.lookup (Dir p) with
    | some Entry.dir => (fs.addDir p, none)
    | some (Entry.file _) => (fs, some "not a directory")
    | none => (fs, some "no such file or directory")

/-- The recursion of Go `os.MkdirAll`: nothing to do when the path is a
directory, an error when it is a file, and else create the parent, then the
directory. -/
def MkdirAllLoop : Nat → FileSystem → GoString → FileSystem × Option GoError
  | 0, fs, _ => (fs, some "path too long")
  | fuel + 1, fs, p =>
    match fs.lookup p with
    | some Entry.dir => (fs, none)
    | some (Entry.file _) => (fs, some "not a directory")
    | none =>
      match MkdirAllLoop fuel fs (Dir p) with
      | (fs1, some e) => (fs1, some e)
      | (fs1, none) => Mkdir fs1 p

/-- Go `os.MkdirAll`. -/
def MkdirAll (fs : FileSystem) (p : GoString) : FileSystem × Option GoError :=
  MkdirAllLoop (p.length + 2) fs p

/-- Go `os.Create`: create the file, or truncate it when it exists. -/
def Create (fs : FileSystem) (p : GoString) : FileSystem × Option GoError :=
  match fs.lookup p with
  | some Entry.dir => (fs, some "is a directory")
  | _ =>
    match fs.lookup (Dir p) with
    | some Entry.dir => (fs.writeFile p [], none)
    | some (Entry.file _) => (fs, some "not a directory")
    | none => (fs, some "no such file or directory")

/-- An effect of `download`, in the order performed. -/
inductive DownloadEvent where
  | httpGet (url : GoString) : DownloadEvent
  | mkdirAll (dir : GoString) : DownloadEvent
  | stat (path : GoString) : DownloadEvent
  | create (path : GoString) : DownloadEvent
  | copyBody (path : GoString) (bytes : Nat) : DownloadEvent
deriving DecidableEq, Repr

/-- The results of `download`, the file system it leaves and its effects. -/
structure DownloadResult where
  written : Int
  err : Option GoError
  fs : FileSystem
  events : List DownloadEvent

/-- The source function `download`, with the reply of `http.Get` to each URL
and the file system it runs on.  A copy writes the bytes of the body that
could be read; write errors are left out. -/
def download (get : GoString → Except GoError Response) (fs : FileSystem)
    (remote localPath : GoString) : DownloadResult :=
  match get remote with
  | Except.error e =>
    { written := 0, err := some e, fs := fs, events := [DownloadEvent.httpGet remote] }
  | Except.ok resp =>
    match MkdirAll fs (Dir localPath) with
    | (fs1, some e) =>
      { written := 0, err := some e, fs := fs1,
        events := [DownloadEvent.httpGet remote, DownloadEvent.mkdirAll (Dir localPath)] }
    | (fs1, none) =>
      match Stat fs1 localPath with
      | none =>
        { written := -1, err := none, fs := fs1,
          events := [DownloadEvent.httpGet remote, DownloadEvent.mkdirAll (Dir localPath),
            DownloadEvent.stat localPath] }
      | some _ =>
        match Create fs1 localPath with
        | (fs2, some e) =>
          { written := 0, err := some e, fs := fs2,
            events := [DownloadEvent.httpGet remote, DownloadEvent.mkdirAll (Dir localPath),
              DownloadEvent.stat localPath, DownloadEvent.create localPath] }
        | (fs2, none) =>
          { written := resp.Body.length, err := resp.BodyErr,
            fs := fs2.writeFile localPath resp.Body,
            events := [DownloadEvent.httpGet remote, DownloadEvent.mkdirAll (Dir localPath),
              DownloadEvent.stat localPath, DownloadEvent.create localPath,
              DownloadEvent.copyBody localPath resp.Body.length] }

/-! ## More concrete environments used in examples -/

/-- A CAPTCHA response that carries an image and sets the session `pre`. -/
def captchaReplyWithSession : Response :=
  { Cookies := [{ Name := ascii "PHPSESSID", Value := ascii "pre" }], Body := [1],
    BodyErr := none }

/-- A recognition service that reads `12a4` at the first attempt and `1234`
afterwards, on a site whose CAPTCHA response sets the session `pre` and whose
login endpoint grants the session `new`. -/
def worldSolvedAtSecondAttempt : LoginWorld :=
  { captcha := fun _ _ => Except.ok captchaReplyWithSession
    ocr := fun i _ => if i = 0 then ([ascii "12a4"], none) else ([ascii "1234"], none)
    login := fun _ _ => Except.ok loginReplyGranting }

/-- A recognition service that reads every image as `12a4`. -/
def worldNeverSolved : LoginWorld :=
  { captcha := fun _ _ => Except.ok captchaReplyWithoutCookie
    ocr := fun _ _ => ([ascii "12a4"], none)
    login := fun _ _ => Except.ok loginReplyGranting }

/-- A listing page with a header row and the two records `7` and `7/`. -/
def listingWithSlashId : List (List ListingRow) :=
  [[{ seeHref := none, firstCell := ascii "id" },
    { seeHref := some (ascii "/r1"), firstCell := ascii "7" },
    { seeHref := some (ascii "/r2"), firstCell := ascii "7/" }]]

/-- A site with the records `7` and `7/`, each with one sub-record `n`. -/
def siteWithSlashId : Site :=
  { listing := Except.ok listingWithSlashId
    record := fun href =>
      Except.ok [{ lastCellHref := none, firstCell := ascii "name" },
        { lastCellHref := some (href ++ ascii "/d"), firstCell := ascii "n" }]
    detail := fun href => Except.ok (some (ascii "http://files" ++ href)) }

/-- A listing page with a header row and two records, one with an empty id and
one with the id `.`. -/
def listingWithDotId : List (List ListingRow) :=
  [[{ seeHref := none, firstCell := ascii "id" },
    { seeHref := some (ascii "/r1"), firstCell := ascii "" },
    { seeHref := some (ascii "/r2"), firstCell := ascii "." }]]

/-- A site with a record with an empty id and a record with the id `.`, each
with one sub-record `n`. -/
def siteWithDotId : Site :=
  { listing := Except.ok listingWithDotId
    record := fun href =>
      Except.ok [{ lastCellHref := none, firstCell := ascii "name" },
        { lastCellHref := some (href ++ ascii "/d"), firstCell := ascii "n" }]
    detail := fun href => Except.ok (some (ascii "http://files" ++ href)) }

/-- A listing page with a header row and the single record `7`. -/
def listingWithOneRecord : List (List ListingRow) :=
  [[{ seeHref := none, firstCell := ascii "id" },
    { seeHref := some (ascii "/r1"), firstCell := ascii "7" }]]

/-- A site with the single record `7`, whose sub-records are named `/../002.b`
and `b`. -/
def siteWithSlashName : Site :=
  { listing := Except.ok listingWithOneRecord
    record := fun _ =>
      Except.ok [{ lastCellHref := none, firstCell := ascii "name" },
        { lastCellHref := some (ascii "/d1"), firstCell := ascii "/../002.b" },
        { lastCellHref := some (ascii "/d2"), firstCell := ascii "b" }]
    detail := fun href => Except.ok (some (ascii "http://files" ++ href)) }

/-- A site with the single record `7`, whose sub-records are named `a` and
`b`. -/
def sitePlain : Site :=
  { listing := Except.ok listingWithOneRecord
    record := fun _ =>
      Except.ok [{ lastCellHref := none, firstCell := ascii "name" },
        { lastCellHref := some (ascii "/d1"), firstCell := ascii "a" },
        { lastCellHref := some (ascii "/d2"), firstCell := ascii "b" }]
    detail := fun href => Except.ok (some (ascii "http://files" ++ href)) }

/-- A file system that holds the directory `u` and the file `u/f.pdf`. -/
def fsWithFile : FileSystem :=
  { entries := fun p =>
      if p = ascii "u/f.pdf" then some (Entry.file [1, 2, 3])
      else if p = ascii "u" then some Entry.dir
      else none
    parentIsDir := by
      intro p e hp
      by_cases h1 : p = ascii "u/f.pdf"
      · subst h1
        decide
      · by_cases h2 : p = ascii "u"
        · subst h2
          decide
        · simp [h1, h2] at hp }

/-- A remote that cannot be reached. -/
def getUnreachable : GoString → Except GoError Response :=
  fun _ => Except.error "connection refused"

/-- A remote that serves four bytes. -/
def getFourBytes : GoString → Except GoError Response :=
  fun _ => Except.ok { Cookies := [], Body := [9, 9, 9, 9], BodyErr := none }

/-- A CAPTCHA response that carries an image and sets the cookie `lang` only,
no `PHPSESSID`. -/
def captchaReplyWithOtherCookie : Response :=
  { Cookies := [{ Name := ascii "lang", Value := ascii "zh" }], Body := [1],
    BodyErr := none }

/-- A site whose CAPTCHA response sets the cookie `lang` only, with a
recognition service that reads every image as `1234` and a login endpoint that
accepts whatever is submitted. -/
def worldWithOtherCookie : LoginWorld :=
  { captcha := fun _ _ => Except.ok captchaReplyWithOtherCookie
    ocr := fun _ _ => ([ascii "1234"], none)
    login := fun _ _ => Except.ok loginReplyGranting }

/-- The login request for the user `user`, the first 12 bytes `averylongpas`
of a password, the solved text `1234` and the session `pre`, written out. -/
def expectedLoginRequest : Request :=
  { Method := ascii "POST"
    URL := ascii "http://www.hengyirong.com/site/login.html"
    Header := [(ascii "Content-Type", ascii "application/x-www-form-urlencoded"),
      (ascii "Cookie", ascii "PHPSESSID=pre")]
    Form := some (LoginForm.mk (ascii "user") (ascii "averylongpas") (ascii "1234")) }

/-- A login endpoint that grants a session to `expectedLoginRequest` and to no
other request. -/
def strictLoginEndpoint : Transport :=
  fun req => if req = expectedLoginRequest then Except.ok loginReplyGranting
    else Except.error "unexpected request"

/-- The header row of the listing pages used in examples. -/
def headerRow : ListingRow := { seeHref := none, firstCell := ascii "id" }

/-! ## Lemmas -/

theorem mem_ends_repeatN_charRange (s : GoString) (lo hi : Nat) (n i j : Nat) :
    j ∈ Regexp.ends s (Regexp.repeatN (Regexp.charRange lo hi) n) i ↔
      j = i + n ∧ ∀ k, k < n → ∃ b, s[i + k]? = some b ∧ lo ≤ b ∧ b ≤ hi := by
  induction n generalizing i with
  | zero => simp [Regexp.repeatN, Regexp.ends]
  | succ n ih =>
    simp only [Regexp.repeatN, Regexp.ends, List.mem_flatMap]
    constructor
    · rintro ⟨m, hm, hj⟩
      rcases hb : s[i]? with _ | b
      · simp [hb] at hm
      · rw [hb] at hm
        by_cases hr : lo ≤ b ∧ b ≤ hi
        · simp only [hr, and_self, if_true, List.mem_singleton] at hm
          subst hm
          obtain ⟨hj1, hj2⟩ := (ih (i + 1)).1 hj
          refine ⟨by omega, ?_⟩
          intro k hk
          rcases k with _ | k
          · exact ⟨b, by simpa using hb, hr⟩
          · have := hj2 k (by omega)
            rwa [show i + 1 + k = i + (k + 1) by omega] at this
        · simp [hr] at hm
    · rintro ⟨hj, hall⟩
      obtain ⟨b, hb, hr⟩ := hall 0 (by omega)
      refine ⟨i + 1, ?_, ?_⟩
      · rw [Nat.add_zero] at hb
        simp [hb, hr]
      · refine (ih (i + 1)).2 ⟨by omega, ?_⟩
        intro k hk
        have := hall (k + 1) (by omega)
        rwa [show i + (k + 1) = i + 1 + k by omega] at this

theorem mem_ends_concat (s : GoString) (a b : Regexp) (i j : Nat) :
    j ∈ Regexp.ends s (Regexp.concat a b) i ↔
      ∃ m, m ∈ Regexp.ends s a i ∧ j ∈ Regexp.ends s b m := by
  simp [Regexp.ends, List.mem_flatMap]

theorem mem_ends_captchaPattern (s : GoString) (i j : Nat) :
    j ∈ Regexp.ends s captchaPattern i ↔
      i = 0 ∧ j = 4 ∧ s.length = 4 ∧
        ∀ k, k < 4 → ∃ b, s[k]? = some b ∧ 48 ≤ b ∧ b ≤ 57 := by
  unfold captchaPattern
  rw [mem_ends_concat]
  constructor
  · rintro ⟨m, hm, hj⟩
    rw [mem_ends_concat] at hj
    obtain ⟨n, hn, hj⟩ := hj
    rw [mem_ends_repeatN_charRange] at hn
    obtain ⟨hn, hall⟩ := hn
    by_cases hi : i = 0
    · subst hi
      simp only [Regexp.ends, if_true, List.mem_singleton] at hm
      subst hm
      by_cases hl : n = s.length
      · simp only [Regexp.ends, hl, if_true, List.mem_singleton] at hj
        refine ⟨rfl, by omega, by omega, ?_⟩
        intro k hk
        simpa using hall k hk
      · simp [Regexp.ends, hl] at hj
    · simp [Regexp.ends, hi] at hm
  · rintro ⟨hi, hj, hl, hall⟩
    subst hi
    refine ⟨0, by simp [Regexp.ends], ?_⟩
    rw [mem_ends_concat]
    refine ⟨4, ?_, by simp [Regexp.ends, hl, hj]⟩
    rw [mem_ends_repeatN_charRange]
    refine ⟨by omega, ?_⟩
    intro k hk
    simpa using hall k hk

theorem fourDigits_iff (s : GoString) :
    (s.length = 4 ∧ ∀ k, k < 4 → ∃ b, s[k]? = some b ∧ 48 ≤ b ∧ b ≤ 57) ↔
      (s.length = 4 ∧ ∀ b ∈ s, 48 ≤ b ∧ b ≤ 57) := by
  constructor
  · rintro ⟨hl, h⟩
    refine ⟨hl, ?_⟩
    rcases s with _ | ⟨a, _ | ⟨b, _ | ⟨c, _ | ⟨d, _ | ⟨e, t⟩⟩⟩⟩⟩ <;> simp at hl
    have h0 := h 0 (by omega)
    have h1 := h 1 (by omega)
    have h2 := h 2 (by omega)
    have h3 := h 3 (by omega)
    simp at h0 h1 h2 h3
    simp [h0, h1, h2, h3]
  · rintro ⟨hl, h⟩
    refine ⟨hl, ?_⟩
    rcases s with _ | ⟨a, _ | ⟨b, _ | ⟨c, _ | ⟨d, _ | ⟨e, t⟩⟩⟩⟩⟩ <;> simp at hl
    simp at h
    intro k hk
    have : k = 0 ∨ k = 1 ∨ k = 2 ∨ k = 3 := by omega
    rcases this with rfl | rfl | rfl | rfl <;> simp [h]

theorem matchString_captchaPattern (s : GoString) :
    MatchString captchaPattern s =
      (decide (IsFourAsciiDigits s), none) := by
  unfold MatchString IsFourAsciiDigits
  congr 1
  rw [Bool.eq_iff_iff, List.any_eq_true, decide_eq_true_iff, ← fourDigits_iff]
  constructor
  · rintro ⟨i, _, hi⟩
    rcases he : Regexp.ends s captchaPattern i with _ | ⟨j, t⟩
    · simp [he] at hi
    · have hj : j ∈ Regexp.ends s captchaPattern i := by simp [he]
      exact ((mem_ends_captchaPattern s i j).1 hj).2.2
  · intro h
    refine ⟨0, by simp, ?_⟩
    have hj : 4 ∈ Regexp.ends s captchaPattern 0 :=
      (mem_ends_captchaPattern s 0 4).2 ⟨rfl, rfl, h⟩
    rcases he : Regexp.ends s captchaPattern 0 with _ | ⟨j, t⟩
    · simp [he] at hj
    · simp

theorem solveCaptchaCheck_eq (resp : Response) (results : List GoString)
    (err : Option GoError) (req : Request) :
    solveCaptchaCheck resp results err req =
      if err = none ∧ ∃ s, results.head? = some s ∧ IsFourAsciiDigits s then
        { solved := results.head?, sess := getPHPSESSID resp, err := none, request := req }
      else
        { solved := none, sess := none, err := some "无法破解验证码，重试中", request := req } := by
  rcases err with _ | e
  · rcases results with _ | ⟨first, rest⟩
    · simp [solveCaptchaCheck]
    · by_cases h : IsFourAsciiDigits first
      · simp [solveCaptchaCheck, matchString_captchaPattern, h]
      · simp [solveCaptchaCheck, matchString_captchaPattern, h]
  · simp [solveCaptchaCheck]

theorem solveCaptcha_request (client : Transport) (ocr : Recognizer)
    (session : Option GoString) :
    (solveCaptcha client ocr session).request =
      (match session with
        | some s =>
          (NewRequest (ascii "GET") captchaURL none).setHeader (ascii "Cookie")
            (ascii "PHPSESSID=" ++ s)
        | none => NewRequest (ascii "GET") captchaURL none) := by
  unfold solveCaptcha
  simp only
  split
  · rfl
  · split
    · rfl
    · simp [solveCaptchaCheck_eq]
      split <;> rfl

theorem solveCaptcha_of_fetched (client : Transport) (ocr : Recognizer)
    (session : Option GoString) (resp : Response)
    (hfetch : client (solveCaptcha client ocr session).request = Except.ok resp)
    (hread : resp.BodyErr = none) :
    solveCaptcha client ocr session =
      solveCaptchaCheck resp (ocr resp.Body).1 (ocr resp.Body).2
        (solveCaptcha client ocr session).request := by
  rw [solveCaptcha_request] at hfetch ⊢
  unfold solveCaptcha
  simp only
  rw [hfetch]
  simp [ReadAll, hread]

/-! ## The login loop -/

theorem captchaFetches_append (a b : List LoginEvent) :
    captchaFetches (a ++ b) = captchaFetches a + captchaFetches b := by
  simp [captchaFetches, List.countP_append]

theorem loginPosts_append (a b : List LoginEvent) :
    loginPosts (a ++ b) = loginPosts a + loginPosts b := by
  simp [loginPosts, List.countP_append]

/-- While the solver fails, the loop only fetches CAPTCHAs: after `m` failing
iterations it stands at iteration `i + m` with `m` more fetches and no POST. -/
theorem loginLoop_skip_failures (w : LoginWorld) (username password : GoString)
    (m : Nat) : ∀ (fuel i : Nat) (events : List LoginEvent),
    (∀ j, j < m → (solveCaptcha (w.captcha (i + j)) (w.ocr (i + j)) none).err ≠ none) →
    ∃ more, loginLoop w username password (m + fuel) i events =
        loginLoop w username password fuel (i + m) (events ++ more) ∧
      captchaFetches more = m ∧ loginPosts more = 0 := by
  induction m with
  | zero =>
    intro fuel i events _
    exact ⟨[], by simp, rfl, rfl⟩
  | succ m ih =>
    intro fuel i events hfail
    have h0 := hfail 0 (by omega)
    rw [Nat.add_zero] at h0
    obtain ⟨e, he⟩ := Option.ne_none_iff_exists'.mp h0
    obtain ⟨more, hrun, hc, hp⟩ := ih fuel (i + 1)
      (events ++ [LoginEvent.captchaFetch (solveCaptcha (w.captcha i) (w.ocr i) none).request]
        ++ [LoginEvent.logged e])
      (fun j hj => by
        have := hfail (j + 1) (by omega)
        rwa [show i + (j + 1) = i + 1 + j by omega] at this)
    refine ⟨[LoginEvent.captchaFetch (solveCaptcha (w.captcha i) (w.ocr i) none).request,
      LoginEvent.logged e] ++ more, ?_, ?_, ?_⟩
    · rw [show m + 1 + fuel = (m + fuel) + 1 by omega]
      simp only [loginLoop, he]
      rw [hrun]
      congr 1
      · omega
      · simp
    · rw [captchaFetches_append, hc]
      simp [captchaFetches]
      omega
    · rw [loginPosts_append, hp]
      simp [loginPosts]

/-! ## Claims about CAPTCHA solving and login -/

/-- C3: for a CAPTCHA image that was fetched and read successfully,
`solveCaptcha` returns the solved text `s` with a nil error exactly when the
recognition call returned no error and a result list whose first element is
`s`, four ASCII digits; in every other case it returns no solved text and a
non-nil error. -/
theorem solveCaptcha_solved_iff (client : Transport) (ocr : Recognizer)
    (session : Option GoString) (resp : Response)
    (hfetch : client (solveCaptcha client ocr session).request = Except.ok resp)
    (hread : resp.BodyErr = none) :
    (∀ s, ((solveCaptcha client ocr session).solved = some s ∧
          (solveCaptcha client ocr session).err = none) ↔
        ((ocr resp.Body).2 = none ∧ (ocr resp.Body).1.head? = some s ∧
          IsFourAsciiDigits s)) ∧
      (¬ ((ocr resp.Body).2 = none ∧
          ∃ s, (ocr resp.Body).1.head? = some s ∧ IsFourAsciiDigits s) →
        (solveCaptcha client ocr session).solved = none ∧
          (solveCaptcha client ocr session).err ≠ none) := by
  rw [solveCaptcha_of_fetched client ocr session resp hfetch hread, solveCaptchaCheck_eq]
  constructor
  · intro s
    split
    · rename_i h
      obtain ⟨herr, t, ht, hd⟩ := h
      simp only [and_true]
      constructor
      · intro hs
        rw [ht] at hs
        cases hs
        exact ⟨herr, ht, hd⟩
      · rintro ⟨_, hs, _⟩
        exact hs
    · rename_i h
      simp only [false_and, false_iff, reduceCtorEq]
      rintro ⟨herr, hs, hd⟩
      exact h ⟨herr, s, hs, hd⟩
  · intro h
    rw [if_neg h]
    simp

/-- Witness for C3: the image is recognised as `1234`. -/
theorem solveCaptcha_solved_iff_witness :
    (∀ s, ((solveCaptcha
            (fun _ => Except.ok { Cookies := [], Body := [1], BodyErr := none })
            (fun _ => ([ascii "1234"], none)) none).solved = some s ∧
          (solveCaptcha
            (fun _ => Except.ok { Cookies := [], Body := [1], BodyErr := none })
            (fun _ => ([ascii "1234"], none)) none).err = none) ↔
        ((none : Option GoError) = none ∧ [ascii "1234"].head? = some s ∧
          IsFourAsciiDigits s)) ∧
      (¬ ((none : Option GoError) = none ∧
          ∃ s, [ascii "1234"].head? = some s ∧ IsFourAsciiDigits s) →
        (solveCaptcha
            (fun _ => Except.ok { Cookies := [], Body := [1], BodyErr := none })
            (fun _ => ([ascii "1234"], none)) none).solved = none ∧
          (solveCaptcha
            (fun _ => Except.ok { Cookies := [], Body := [1], BodyErr := none })
            (fun _ => ([ascii "1234"], none)) none).err ≠ none) :=
  solveCaptcha_solved_iff
    (fun _ => Except.ok { Cookies := [], Body := [1], BodyErr := none })
    (fun _ => ([ascii "1234"], none)) none
    { Cookies := [], Body := [1], BodyErr := none } rfl rfl

/-- C10, at the failing input: the CAPTCHA response sets no cookie and the
image is recognised as `1234`; `solveCaptcha` returns a nil error with a nil
session pointer, and `login` stops on the dereference `*sess` without having
posted anything. -/
theorem solveCaptcha_nil_session_without_error :
    (solveCaptcha (worldWithoutSessionCookie.captcha 0) (worldWithoutSessionCookie.ocr 0)
        none).err = none ∧
      (solveCaptcha (worldWithoutSessionCookie.captcha 0) (worldWithoutSessionCookie.ocr 0)
        none).solved = some (ascii "1234") ∧
      (solveCaptcha (worldWithoutSessionCookie.captcha 0) (worldWithoutSessionCookie.ocr 0)
        none).sess = none ∧
      (login worldWithoutSessionCookie (ascii "user") (ascii "secret") 1).outcome =
        LoginOutcome.nilDereference := by
  decide

/-- C9: the password `postLogin` puts in the form is the first 12 bytes of the
password when it is longer than 12 bytes and the whole password otherwise; it
is never longer than 12 bytes and is a prefix of the input; the username and
the solved text are sent unchanged, and the cookie header presents the session
identifier passed in.  The request with that form is the one `postLogin`
submits: its results are the error of the round trip of that request, or are
read from the response to that request. -/
theorem postLogin_form (username password captcha session : GoString) :
    (∃ form, (postLoginRequest username password captcha session).Form = some form ∧
      form.password = (if password.length > 12 then password.take 12 else password) ∧
      form.password.length ≤ 12 ∧
      form.password <+: password ∧
      form.username = username ∧
      form.verifyCode = captcha ∧
      (postLoginRequest username password captcha session).Header.lookup (ascii "Cookie") =
        some (ascii "PHPSESSID=" ++ session)) ∧
      (postLoginRequest username password captcha session).Method = ascii "POST" ∧
      (postLoginRequest username password captcha session).URL = loginURL ∧
      ∀ roundTrip : Transport,
        (∀ e, roundTrip (postLoginRequest username password captcha session) = Except.error e →
          postLogin roundTrip username password captcha session = (none, some e)) ∧
        (∀ resp newSess,
          roundTrip (postLoginRequest username password captcha session) = Except.ok resp →
          getPHPSESSID resp = some newSess →
          postLogin roundTrip username password captcha session = (some newSess, none)) ∧
        (∀ resp,
          roundTrip (postLoginRequest username password captcha session) = Except.ok resp →
          getPHPSESSID resp = none →
          (postLogin roundTrip username password captcha session).1 = none ∧
            (postLogin roundTrip username password captcha session).2 ≠ none) := by
  refine ⟨⟨_, rfl, rfl, ?_, ?_, rfl, rfl, ?_⟩, rfl, rfl, ?_⟩
  · simp only
    split
    · simp [List.length_take]
    · omega
  · simp only
    split
    · exact List.take_prefix _ _
    · exact List.prefix_refl _
  · simp only [postLoginRequest, NewRequest, Request.setHeader]
    have k1 : CanonicalMIMEHeaderKey (ascii "content-type") = ascii "Content-Type" := by
      decide
    have k2 : CanonicalMIMEHeaderKey (ascii "cookie") = ascii "Cookie" := by decide
    have h1 : (ascii "Content-Type" ≠ ascii "Cookie") := by decide
    have h2 : (ascii "Cookie" == ascii "Content-Type") = false := by decide
    simp [k1, k2, List.filter, h1, h2, List.lookup]
  · intro roundTrip
    refine ⟨?_, ?_, ?_⟩
    · intro e he
      simp [postLogin, he]
    · intro resp newSess hresp hsess
      simp [postLogin, hresp, hsess]
    · intro resp hresp hsess
      simp [postLogin, hresp, hsess]

/-- Witness for C9: an endpoint that grants a session only to the request with
the user `user`, the password cut to `averylongpas`, the solved text `1234`
and the session `pre` grants it to `postLogin` called with the password
`averylongpassword`. -/
theorem postLogin_form_witness :
    strictLoginEndpoint
        (postLoginRequest (ascii "user") (ascii "averylongpassword") (ascii "1234")
          (ascii "pre")) = Except.ok loginReplyGranting ∧
      getPHPSESSID loginReplyGranting = some (ascii "new") ∧
      postLogin strictLoginEndpoint (ascii "user") (ascii "averylongpassword") (ascii "1234")
        (ascii "pre") = (some (ascii "new"), none) :=
  ⟨by unfold strictLoginEndpoint; rw [if_pos (by decide)], by decide,
    ((postLogin_form (ascii "user") (ascii "averylongpassword") (ascii "1234")
      (ascii "pre")).2.2.2 strictLoginEndpoint).2.1 loginReplyGranting (ascii "new")
      (by unfold strictLoginEndpoint; rw [if_pos (by decide)]) (by decide)⟩

/-- C1, at the failing input: the CAPTCHA response of the first attempt sets
the cookie `lang` but no `PHPSESSID`, the image is recognised as `1234`, so
the solver succeeds on attempt 1, and the login endpoint accepts whatever is
submitted; `login` fetches one CAPTCHA and then stops on the dereference
`*sess` without any login POST, and returns no credential however long it is
run. -/
theorem login_stops_before_post_without_session_cookie :
    (solveCaptcha (worldWithOtherCookie.captcha 0) (worldWithOtherCookie.ocr 0)
        none).err = none ∧
      (solveCaptcha (worldWithOtherCookie.captcha 0) (worldWithOtherCookie.ocr 0)
        none).solved = some (ascii "1234") ∧
      (solveCaptcha (worldWithOtherCookie.captcha 0) (worldWithOtherCookie.ocr 0)
        none).sess = none ∧
      worldWithOtherCookie.login 0 = (fun _ => Except.ok loginReplyGranting) ∧
      getPHPSESSID loginReplyGranting = some (ascii "new") ∧
      (login worldWithOtherCookie (ascii "user") (ascii "secret") 1).outcome =
        LoginOutcome.nilDereference ∧
      captchaFetches (login worldWithOtherCookie (ascii "user") (ascii "secret") 1).events
        = 1 ∧
      loginPosts (login worldWithOtherCookie (ascii "user") (ascii "secret") 1).events = 0 ∧
      (login worldWithOtherCookie (ascii "user") (ascii "secret") 5).outcome =
        LoginOutcome.nilDereference ∧
      loginPosts (login worldWithOtherCookie (ascii "user") (ascii "secret") 5).events
        = 0 :=
  ⟨by decide, by decide, by decide, rfl, by decide, by decide, by decide, by decide,
    by decide, by decide⟩

/-- The run of `login` that succeeds: when the solver fails on attempts 1..N-1,
returns the solved text `solved` together with a session `sess` on attempt N,
and the login endpoint answers the submission of attempt N with a `PHPSESSID`
cookie of value `cred`, then `login` returns within N iterations, after exactly
N CAPTCHA fetches and exactly one login POST, and returns `cred`. -/
theorem login_returns_on_attempt (w : LoginWorld) (username password : GoString)
    (N : Nat) (hN : 1 ≤ N) (solved sess cred : GoString) (resp : Response)
    (hfail : ∀ i, i < N - 1 → (solveCaptcha (w.captcha i) (w.ocr i) none).err ≠ none)
    (herr : (solveCaptcha (w.captcha (N - 1)) (w.ocr (N - 1)) none).err = none)
    (hsolved : (solveCaptcha (w.captcha (N - 1)) (w.ocr (N - 1)) none).solved = some solved)
    (hsess : (solveCaptcha (w.captcha (N - 1)) (w.ocr (N - 1)) none).sess = some sess)
    (hpost : w.login (N - 1) (postLoginRequest username password solved sess) =
      Except.ok resp)
    (haccept : getPHPSESSID resp = some cred) :
    ∀ fuel, N ≤ fuel →
      (login w username password fuel).outcome = LoginOutcome.returned (some cred) ∧
        captchaFetches (login w username password fuel).events = N ∧
        loginPosts (login w username password fuel).events = 1 := by
  intro fuel hfuel
  obtain ⟨more, hrun, hc, hp⟩ := loginLoop_skip_failures w username password (N - 1)
    (fuel - (N - 1)) 0 [] (fun j hj => by simpa using hfail j hj)
  have hlast : loginLoop w username password (fuel - (N - 1)) (0 + (N - 1)) ([] ++ more) =
      { outcome := LoginOutcome.returned (some cred),
        events := more ++
          [LoginEvent.captchaFetch
            (solveCaptcha (w.captcha (N - 1)) (w.ocr (N - 1)) none).request] ++
          [LoginEvent.loginPost (postLoginRequest username password solved sess)] } := by
    obtain ⟨f, hf⟩ : ∃ f, fuel - (N - 1) = f + 1 := ⟨fuel - N, by omega⟩
    rw [hf, Nat.zero_add, List.nil_append]
    simp only [loginLoop, herr, hsolved, hsess, postLogin, hpost, haccept]
  unfold login
  rw [show fuel = (N - 1) + (fuel - (N - 1)) by omega, hrun, hlast]
  refine ⟨rfl, ?_, ?_⟩
  · simp only [captchaFetches_append, hc]
    simp [captchaFetches]
    omega
  · simp only [loginPosts_append, hp]
    simp [loginPosts]

/-- C2: when on every attempt the first recognised text, if any, is not four
ASCII digits, then after any number `k` of iterations `login` is still in its
loop, having issued exactly `k` CAPTCHA requests and no login POST. -/
theorem login_loops_on_bad_shape (w : LoginWorld) (username password : GoString)
    (hshape : ∀ i image s, (w.ocr i image).1.head? = some s → ¬ IsFourAsciiDigits s) :
    ∀ k, (login w username password k).outcome = LoginOutcome.running ∧
      captchaFetches (login w username password k).events = k ∧
      loginPosts (login w username password k).events = 0 := by
  intro k
  have hfail : ∀ i, (solveCaptcha (w.captcha i) (w.ocr i) none).err ≠ none := by
    intro i
    unfold solveCaptcha
    simp only
    split
    · simp
    · split
      · simp
      · rename_i resp _ image _
        rw [solveCaptchaCheck_eq, if_neg]
        · simp
        · rintro ⟨_, s, hs, hd⟩
          exact hshape i image s hs hd
  obtain ⟨more, hrun, hc, hp⟩ := loginLoop_skip_failures w username password k 0 0 []
    (fun j _ => hfail (0 + j))
  unfold login
  rw [show k = k + 0 by omega, hrun]
  simp only [loginLoop, List.nil_append, Nat.add_zero]
  exact ⟨trivial, hc, hp⟩

/-- An instance of the run that succeeds: the recognition service misreads the first image and reads
the second one as `1234`; `login` returns the granted session after two
CAPTCHA fetches and one POST. -/
theorem login_returns_on_attempt_witness :
    (login worldSolvedAtSecondAttempt (ascii "user") (ascii "secret") 2).outcome =
        LoginOutcome.returned (some (ascii "new")) ∧
      captchaFetches (login worldSolvedAtSecondAttempt (ascii "user") (ascii "secret") 2).events
        = 2 ∧
      loginPosts (login worldSolvedAtSecondAttempt (ascii "user") (ascii "secret") 2).events
        = 1 :=
  login_returns_on_attempt worldSolvedAtSecondAttempt (ascii "user") (ascii "secret") 2
    (by decide) (ascii "1234") (ascii "pre") (ascii "new") loginReplyGranting
    (fun i hi => by
      have h0 : i = 0 := by omega
      subst h0
      decide)
    (by decide) (by decide) (by decide) rfl (by decide) 2 (Nat.le_refl 2)

/-- Witness for C2: every image is read as `12a4`; after three iterations
`login` has fetched three CAPTCHAs, posted nothing and is still looping. -/
theorem login_loops_on_bad_shape_witness :
    (login worldNeverSolved (ascii "user") (ascii "secret") 3).outcome =
        LoginOutcome.running ∧
      captchaFetches (login worldNeverSolved (ascii "user") (ascii "secret") 3).events = 3 ∧
      loginPosts (login worldNeverSolved (ascii "user") (ascii "secret") 3).events = 0 :=
  login_loops_on_bad_shape worldNeverSolved (ascii "user") (ascii "secret")
    (fun i image s hs => by
      simp only [worldNeverSolved, List.head?_cons, Option.some.injEq] at hs
      subst hs
      decide)
    3

/-! ## Paths -/

theorem takeWhile_notSlash_append (w rest : GoString) (hw : 47 ∉ w)
    (hrest : rest = [] ∨ rest.head? = some 47) :
    (w ++ rest).takeWhile (fun c => c ≠ 47) = w := by
  induction w with
  | nil =>
    rcases hrest with h | h
    · simp [h]
    · rcases rest with _ | ⟨c, t⟩
      · simp
      · simp at h
        simp [h]
  | cons a w ih =>
    have ha : a ≠ 47 := fun h => hw (by simp [h])
    have hw2 : 47 ∉ w := fun h => hw (by simp [h])
    have := ih hw2
    simp only [ne_eq, decide_not] at this
    simp [List.takeWhile, ha, this]

theorem dropWhile_notSlash_append (w rest : GoString) (hw : 47 ∉ w)
    (hrest : rest = [] ∨ rest.head? = some 47) :
    (w ++ rest).dropWhile (fun c => c ≠ 47) = rest := by
  induction w with
  | nil =>
    rcases hrest with h | h
    · simp [h]
    · rcases rest with _ | ⟨c, t⟩
      · simp
      · simp at h
        simp [h]
  | cons a w ih =>
    have ha : a ≠ 47 := fun h => hw (by simp [h])
    have hw2 : 47 ∉ w := fun h => hw (by simp [h])
    have := ih hw2
    simp only [ne_eq, decide_not] at this
    simp [List.dropWhile, ha, this]

/-- The separator `path.Clean` writes before a real element of a relative path. -/
theorem cleanLoop_slash (fuel : Nat) (rest out : GoString) (dotdot : Nat) :
    cleanLoop false (fuel + 1) (47 :: rest) out dotdot = cleanLoop false fuel rest out dotdot := by
  simp [cleanLoop]

/-- One turn of the loop of `path.Clean` on a real path element `w`. -/
theorem cleanLoop_element (rooted : Bool) (fuel : Nat) (w rest out : GoString) (dotdot : Nat)
    (hw : IsPlainSegment w) (hrest : rest = [] ∨ rest.head? = some 47) :
    cleanLoop rooted (fuel + 1) (w ++ rest) out dotdot =
      cleanLoop rooted fuel rest (addSlash rooted out ++ w) dotdot := by
  obtain ⟨hne, hslash, hdot, hdotdot⟩ := hw
  have htake := takeWhile_notSlash_append w rest hslash hrest
  have hdrop := dropWhile_notSlash_append w rest hslash hrest
  rcases w with _ | ⟨b, w⟩
  · exact absurd rfl hne
  have hb : b ≠ 47 := fun h => hslash (by simp [h])
  have hw2 : 47 ∉ w := fun h => hslash (by simp [h])
  have hrest47 : ∀ c, rest.head? = some c → c = 47 := by
    intro c hc
    rcases hrest with h | h
    · simp [h] at hc
    · rw [h] at hc
      exact (Option.some.inj hc).symm
  have h2 : ¬ (b = 46 ∧ (w ++ rest = [] ∨ (w ++ rest).head? = some 47)) := by
    rintro ⟨rfl, h | h⟩
    · have : w = [] := (List.append_eq_nil.mp h).1
      exact hdot (by simp [this])
    · rcases w with _ | ⟨c, w⟩
      · exact hdot rfl
      · simp at h
        exact hw2 (by simp [h])
  have h3 : ¬ (b = 46 ∧ (w ++ rest).head? = some 46 ∧
      ((w ++ rest).tail = [] ∨ (w ++ rest).tail.head? = some 47)) := by
    rintro ⟨rfl, h46, h⟩
    rcases w with _ | ⟨c, w⟩
    · simp only [List.nil_append] at h46
      have := hrest47 46 h46
      omega
    · simp only [List.cons_append, List.head?_cons, Option.some.injEq] at h46
      subst h46
      simp only [List.cons_append, List.tail_cons] at h
      rcases h with h | h
      · have : w = [] := (List.append_eq_nil.mp h).1
        exact hdotdot (by simp [this])
      · rcases w with _ | ⟨d, w⟩
        · exact hdotdot rfl
        · simp at h
          exact hw2 (by simp [h])
  rw [List.cons_append] at htake hdrop ⊢
  rw [cleanLoop]
  rw [if_neg hb, if_neg h2, if_neg h3]
  simp only [htake, hdrop]

theorem cleanLoop_word (fuel : Nat) (w rest out : GoString) (dotdot : Nat)
    (hw : IsPlainSegment w) (hrest : rest = [] ∨ rest.head? = some 47) :
    cleanLoop false (fuel + 1) (w ++ rest) out dotdot =
      cleanLoop false fuel rest ((if out.length ≠ 0 then out ++ [47] else out) ++ w) dotdot := by
  rw [cleanLoop_element false fuel w rest out dotdot hw hrest]
  simp [addSlash]

/-- The loop of `path.Clean` copies a relative path made of plain elements
separated by single slashes as it is. -/
theorem cleanLoop_segments (segs : List GoString) (hplain : ∀ s ∈ segs, IsPlainSegment s) :
    ∀ (fuel : Nat) (out : GoString) (dotdot : Nat), 2 * segs.length ≤ fuel + 1 →
      cleanLoop false fuel ([47].intercalate segs) out dotdot =
        segs.foldl (fun acc s => (if acc.length ≠ 0 then acc ++ [47] else acc) ++ s) out := by
  induction segs with
  | nil =>
    intro fuel out dotdot _
    cases fuel <;> simp [List.intercalate, cleanLoop]
  | cons s segs ih =>
    intro fuel out dotdot hfuel
    have hs := hplain s (by simp)
    have hrestplain : ∀ t ∈ segs, IsPlainSegment t := fun t ht => hplain t (by simp [ht])
    rcases segs with _ | ⟨t, segs⟩
    · obtain ⟨f, rfl⟩ : ∃ f, fuel = f + 1 := ⟨fuel - 1, by simp at hfuel; omega⟩
      have := cleanLoop_word f s [] out dotdot hs (Or.inl rfl)
      rw [List.append_nil] at this
      simp only [List.intercalate, List.intersperse, List.flatten, List.append_nil, List.foldl]
      rw [this]
      cases f <;> simp [cleanLoop]
    · obtain ⟨f, rfl⟩ : ∃ f, fuel = f + 2 := ⟨fuel - 2, by simp at hfuel; omega⟩
      have hint : [47].intercalate (s :: t :: segs) = s ++ (47 :: [47].intercalate (t :: segs)) := by
        simp [List.intercalate, List.intersperse, List.flatten]
      rw [hint, cleanLoop_word (f + 1) s (47 :: [47].intercalate (t :: segs)) out dotdot hs
          (Or.inr rfl), cleanLoop_slash,
        ih hrestplain f _ dotdot (by simp at hfuel ⊢; omega)]
      rfl

theorem length_dropWhile_le {α : Type} (p : α → Bool) (l : List α) :
    (l.dropWhile p).length ≤ l.length := by
  induction l with
  | nil => simp
  | cons a l ih =>
    rw [List.dropWhile_cons]
    split
    · simp only [List.length_cons]
      omega
    · exact Nat.le_refl _

/-- The fuel of `path.Clean` is never exhausted: each turn of its loop reads at
least one byte, so fuel beyond the length of the unread path changes nothing. -/
theorem cleanLoop_fuel_succ (rooted : Bool) :
    ∀ (fuel : Nat) (rest out : GoString) (dotdot : Nat), rest.length ≤ fuel →
      cleanLoop rooted (fuel + 1) rest out dotdot = cleanLoop rooted fuel rest out dotdot := by
  intro fuel
  induction fuel with
  | zero =>
    intro rest out dotdot h
    have : rest = [] := List.length_eq_zero.mp (by omega)
    subst this
    simp [cleanLoop]
  | succ fuel ih =>
    intro rest out dotdot h
    rcases rest with _ | ⟨b, rest⟩
    · simp [cleanLoop]
    · have hlen : rest.length ≤ fuel := by simpa using h
      have htail : rest.tail.length ≤ fuel := by
        have := List.length_tail rest
        omega
      rw [cleanLoop, cleanLoop]
      by_cases hb : b = 47
      · simp only [hb, if_true]
        exact ih rest out dotdot hlen
      · have hdrop : ((b :: rest).dropWhile (fun c => c ≠ 47)).length ≤ fuel := by
          rw [List.dropWhile_cons_of_pos (by simpa using hb)]
          exact Nat.le_trans (length_dropWhile_le _ rest) hlen
        simp only [hb, if_false]
        split
        · exact ih rest out dotdot hlen
        · split
          · exact ih _ _ _ htail
          · exact ih _ _ _ hdrop

theorem cleanLoop_fuel_ge (rooted : Bool) (rest out : GoString) (dotdot : Nat) :
    ∀ (extra : Nat), cleanLoop rooted (rest.length + extra) rest out dotdot =
      cleanLoop rooted rest.length rest out dotdot := by
  intro extra
  induction extra with
  | zero => rfl
  | succ extra ih =>
    rw [← Nat.add_assoc, cleanLoop_fuel_succ rooted _ rest out dotdot (by omega), ih]

/-! ### The loop of `path.Clean` on an arbitrary leading part -/

theorem cleanLoop_step_slash (rooted : Bool) (fuel : Nat) (rest out : GoString) (dotdot : Nat)
    (h : (47 :: rest).length ≤ fuel) :
    cleanLoop rooted fuel (47 :: rest) out dotdot = cleanLoop rooted fuel rest out dotdot := by
  obtain ⟨f, rfl⟩ : ∃ f, fuel = f + 1 := ⟨fuel - 1, by simp at h; omega⟩
  rw [cleanLoop_fuel_succ rooted f rest out dotdot (by simpa using h)]
  simp [cleanLoop]

theorem cleanLoop_step_dot (rooted : Bool) (fuel : Nat) (rest out : GoString) (dotdot : Nat)
    (hrest : rest = [] ∨ rest.head? = some 47) (h : (46 :: rest).length ≤ fuel) :
    cleanLoop rooted fuel (46 :: rest) out dotdot = cleanLoop rooted fuel rest out dotdot := by
  obtain ⟨f, rfl⟩ : ∃ f, fuel = f + 1 := ⟨fuel - 1, by simp at h; omega⟩
  rw [cleanLoop_fuel_succ rooted f rest out dotdot (by simpa using h)]
  rw [cleanLoop, if_neg (by decide), if_pos ⟨rfl, hrest⟩]

theorem cleanLoop_step_dotdot (rooted : Bool) (fuel : Nat) (rest out : GoString)
    (dotdot : Nat) (hrest : rest = [] ∨ rest.head? = some 47)
    (h : (46 :: 46 :: rest).length ≤ fuel) :
    cleanLoop rooted fuel (46 :: 46 :: rest) out dotdot =
      cleanLoop rooted fuel rest (dotdotElement rooted out dotdot).1
        (dotdotElement rooted out dotdot).2 := by
  obtain ⟨f, rfl⟩ : ∃ f, fuel = f + 1 := ⟨fuel - 1, by simp at h; omega⟩
  rw [cleanLoop_fuel_succ rooted f rest _ _ (by simp at h; omega)]
  rw [cleanLoop, if_neg (by decide), if_neg (by simp), if_pos ⟨rfl, rfl, hrest⟩]
  rfl

theorem cleanLoop_step_element (rooted : Bool) (fuel : Nat) (w rest out : GoString)
    (dotdot : Nat) (hw : IsPlainSegment w) (hrest : rest = [] ∨ rest.head? = some 47)
    (h : (w ++ rest).length ≤ fuel) :
    cleanLoop rooted fuel (w ++ rest) out dotdot =
      cleanLoop rooted fuel rest (addSlash rooted out ++ w) dotdot := by
  have hpos := List.length_pos.mpr hw.1
  obtain ⟨f, rfl⟩ : ∃ f, fuel = f + 1 := ⟨fuel - 1, by simp at h; omega⟩
  rw [cleanLoop_fuel_succ rooted f rest _ _ (by simp at h; omega)]
  exact cleanLoop_element rooted f w rest out dotdot hw hrest

theorem backUp_ge (out : GoString) (dotdot : Nat) :
    ∀ w, dotdot ≤ w → dotdot ≤ backUp out dotdot w := by
  intro w
  induction w with
  | zero => intro h; simpa [backUp] using h
  | succ w ih =>
    intro h
    rw [backUp]
    split
    · rename_i hc
      exact ih (by omega)
    · exact h

theorem backUp_le (out : GoString) (dotdot : Nat) : ∀ w, backUp out dotdot w ≤ w := by
  intro w
  induction w with
  | zero => simp [backUp]
  | succ w ih =>
    rw [backUp]
    split
    · omega
    · exact Nat.le_refl _

/-- A leading slash survives the `..` case. -/
theorem dotdotElement_rooted (out : GoString) (dotdot : Nat)
    (hhead : out.head? = some 47) (hdd : 1 ≤ dotdot) :
    (dotdotElement true out dotdot).1.head? = some 47 ∧
      1 ≤ (dotdotElement true out dotdot).2 := by
  unfold dotdotElement
  split
  · rename_i hlen
    refine ⟨?_, hdd⟩
    have hge := backUp_ge out dotdot (out.length - 1) (by omega)
    rcases out with _ | ⟨c, out⟩
    · simp at hhead
    · obtain ⟨k, hk⟩ : ∃ k, backUp (c :: out) dotdot ((c :: out).length - 1) = k + 1 :=
        ⟨backUp (c :: out) dotdot ((c :: out).length - 1) - 1, by omega⟩
      simp only [hk, List.take_succ_cons, List.head?_cons]
      simpa using hhead
  · simp [hhead, hdd]

theorem addSlash_head (rooted : Bool) (out w : GoString) (hhead : out.head? = some 47) :
    (addSlash rooted out ++ w).head? = some 47 := by
  rcases out with _ | ⟨c, out⟩
  · simp at hhead
  · unfold addSlash
    split <;> simpa using hhead

theorem exists_first_element (X : GoString) (hne : X ≠ []) (hlast : X.getLast? = some 47) :
    ∃ e rest, X = e ++ 47 :: rest ∧ 47 ∉ e ∧ (rest = [] ∨ rest.getLast? = some 47) := by
  induction X with
  | nil => exact absurd rfl hne
  | cons b X ih =>
    by_cases hb : b = 47
    · refine ⟨[], X, by simp [hb], by simp, ?_⟩
      rcases X with _ | ⟨c, X⟩
      · exact Or.inl rfl
      · right
        simpa [List.getLast?_cons_cons] using hlast
    · rcases X with _ | ⟨c, X⟩
      · simp at hlast
        exact absurd hlast hb
      · have hl : (c :: X).getLast? = some 47 := by
          simpa [List.getLast?_cons_cons] using hlast
        obtain ⟨e, rest, hX, he, hrest⟩ := ih (by simp) hl
        refine ⟨b :: e, rest, by simp [hX], ?_, hrest⟩
        simp only [List.mem_cons, not_or]
        exact ⟨fun h => hb h.symm, he⟩

/-- The loop of `path.Clean` reads a leading part that ends in a slash without
looking at what follows it: the state it reaches depends on that part only.
On a rooted path the output keeps its leading slash. -/
theorem cleanLoop_leading (rooted : Bool) :
    ∀ (n : Nat) (X : GoString), X.length ≤ n → (X = [] ∨ X.getLast? = some 47) →
    ∀ (out : GoString) (dotdot : Nat), ∃ out2 dotdot2,
      (∀ rest fuel, (X ++ rest).length ≤ fuel →
        cleanLoop rooted fuel (X ++ rest) out dotdot =
          cleanLoop rooted fuel rest out2 dotdot2) ∧
      (rooted = true → out.head? = some 47 → 1 ≤ dotdot →
        out2.head? = some 47 ∧ 1 ≤ dotdot2) := by
  intro n
  induction n with
  | zero =>
    intro X hX _ out dotdot
    have : X = [] := List.length_eq_zero.mp (by omega)
    subst this
    exact ⟨out, dotdot, fun rest fuel _ => rfl, fun _ h1 h2 => ⟨h1, h2⟩⟩
  | succ n ih =>
    intro X hX hshape out dotdot
    by_cases hne : X = []
    · subst hne
      exact ⟨out, dotdot, fun rest fuel _ => rfl, fun _ h1 h2 => ⟨h1, h2⟩⟩
    have hlast : X.getLast? = some 47 := hshape.resolve_left hne
    obtain ⟨e, X2, rfl, he, hX2⟩ := exists_first_element X hne hlast
    have hlen2 : X2.length ≤ n := by
      simp at hX
      omega
    have hhead : ∀ rest : GoString, (47 :: (X2 ++ rest) = [] ∨
        (47 :: (X2 ++ rest)).head? = some 47) := fun rest => Or.inr rfl
    by_cases hempty : e = []
    · -- empty element
      subst hempty
      obtain ⟨out2, dd2, hrun, hinv⟩ := ih X2 hlen2 hX2 out dotdot
      refine ⟨out2, dd2, ?_, hinv⟩
      intro rest fuel hfuel
      simp only [List.nil_append, List.cons_append] at hfuel ⊢
      rw [cleanLoop_step_slash rooted fuel _ out dotdot hfuel]
      exact hrun rest fuel (by simp at hfuel ⊢; omega)
    by_cases hdot : e = [46]
    · -- . element
      subst hdot
      obtain ⟨out2, dd2, hrun, hinv⟩ := ih X2 hlen2 hX2 out dotdot
      refine ⟨out2, dd2, ?_, hinv⟩
      intro rest fuel hfuel
      simp only [List.cons_append, List.nil_append] at hfuel ⊢
      rw [cleanLoop_step_dot rooted fuel _ out dotdot (hhead rest) hfuel,
        cleanLoop_step_slash rooted fuel _ out dotdot (by simp at hfuel ⊢; omega)]
      exact hrun rest fuel (by simp at hfuel ⊢; omega)
    by_cases hdotdot : e = [46, 46]
    · -- .. element
      subst hdotdot
      obtain ⟨out2, dd2, hrun, hinv⟩ := ih X2 hlen2 hX2
        (dotdotElement rooted out dotdot).1 (dotdotElement rooted out dotdot).2
      refine ⟨out2, dd2, ?_, ?_⟩
      · intro rest fuel hfuel
        simp only [List.cons_append, List.nil_append] at hfuel ⊢
        rw [cleanLoop_step_dotdot rooted fuel _ out dotdot (hhead rest) hfuel,
          cleanLoop_step_slash rooted fuel _ _ _ (by simp at hfuel ⊢; omega)]
        exact hrun rest fuel (by simp at hfuel ⊢; omega)
      · intro hr h1 h2
        subst hr
        have := dotdotElement_rooted out dotdot h1 h2
        exact hinv rfl this.1 this.2
    · -- real element
      have hplain : IsPlainSegment e := ⟨hempty, he, hdot, hdotdot⟩
      obtain ⟨out2, dd2, hrun, hinv⟩ := ih X2 hlen2 hX2 (addSlash rooted out ++ e) dotdot
      refine ⟨out2, dd2, ?_, ?_⟩
      · intro rest fuel hfuel
        rw [List.append_assoc] at hfuel ⊢
        rw [List.cons_append] at hfuel ⊢
        rw [cleanLoop_step_element rooted fuel e _ out dotdot hplain (hhead rest) hfuel,
          cleanLoop_step_slash rooted fuel _ _ _ (by simp at hfuel ⊢; omega)]
        exact hrun rest fuel (by simp at hfuel ⊢; omega)
      · intro hr h1 h2
        exact hinv hr (addSlash_head rooted out e h1) h2

theorem Clean_two_segments (a b : GoString) (ha : IsPlainSegment a) (hb : IsPlainSegment b) :
    Clean (a ++ 47 :: b) = a ++ 47 :: b := by
  have hseg := cleanLoop_segments [a, b]
    (by intro s hs; simp at hs; rcases hs with rfl | rfl <;> assumption)
    (a ++ 47 :: b).length [] 0
    (by have := List.length_pos.mpr ha.1; have := List.length_pos.mpr hb.1; simp; omega)
  have hint : [47].intercalate [a, b] = a ++ 47 :: b := by
    simp [List.intercalate, List.intersperse, List.flatten]
  rw [hint] at hseg
  obtain ⟨c, a2, rfl⟩ : ∃ c a2, a = c :: a2 := List.exists_cons_of_ne_nil ha.1
  have hc : c ≠ 47 := fun h => ha.2.1 (by simp [h])
  unfold Clean
  simp only [List.cons_append, List.head?_cons, reduceCtorEq, if_false, Option.some.injEq, hc,
    decide_False, Bool.false_eq_true]
  rw [List.cons_append] at hseg
  rw [hseg]
  simp

theorem Clean_three_segments (a b c : GoString) (ha : IsPlainSegment a)
    (hb : IsPlainSegment b) (hc : IsPlainSegment c) :
    Clean ((a ++ 47 :: b) ++ 47 :: c) = (a ++ 47 :: b) ++ 47 :: c := by
  have hseg := cleanLoop_segments [a, b, c]
    (by intro s hs; simp at hs; rcases hs with rfl | rfl | rfl <;> assumption)
    ((a ++ 47 :: b) ++ 47 :: c).length [] 0
    (by
      have := List.length_pos.mpr ha.1
      have := List.length_pos.mpr hb.1
      have := List.length_pos.mpr hc.1
      simp
      omega)
  have hint : [47].intercalate [a, b, c] = (a ++ 47 :: b) ++ 47 :: c := by
    simp [List.intercalate, List.intersperse, List.flatten]
  rw [hint] at hseg
  obtain ⟨d, a2, rfl⟩ : ∃ d a2, a = d :: a2 := List.exists_cons_of_ne_nil ha.1
  have hd : d ≠ 47 := fun h => ha.2.1 (by simp [h])
  unfold Clean
  simp only [List.cons_append, List.head?_cons, reduceCtorEq, if_false, Option.some.injEq, hd,
    decide_False, Bool.false_eq_true]
  simp only [List.cons_append] at hseg
  rw [hseg]
  simp

theorem Join_two_plain (a b : GoString) (ha : IsPlainSegment a) (hb : IsPlainSegment b) :
    Join [a, b] = a ++ 47 :: b := by
  have hint : [47].intercalate [a, b] = a ++ 47 :: b := by
    simp [List.intercalate, List.intersperse, List.flatten]
  unfold Join
  rw [List.dropWhile_cons_of_neg (by simpa using ha.1)]
  simp only [hint]
  exact Clean_two_segments a b ha hb

theorem Join_three_plain (a b c : GoString) (ha : IsPlainSegment a) (hb : IsPlainSegment b)
    (hc : IsPlainSegment c) :
    Join [a ++ 47 :: b, c] = (a ++ 47 :: b) ++ 47 :: c := by
  have hint : [47].intercalate [a ++ 47 :: b, c] = (a ++ 47 :: b) ++ 47 :: c := by
    simp [List.intercalate, List.intersperse, List.flatten]
  unfold Join
  rw [List.dropWhile_cons_of_neg (by simp)]
  simp only [hint]
  exact Clean_three_segments a b c ha hb hc

/-! ### `path.Join` under an arbitrary first element -/

theorem cleanLoop_nil (rooted : Bool) (fuel : Nat) (out : GoString) (dotdot : Nat) :
    cleanLoop rooted fuel [] out dotdot = out := by
  cases fuel <;> simp [cleanLoop]

theorem Clean_one_segment (a : GoString) (ha : IsPlainSegment a) : Clean a = a := by
  have hseg := cleanLoop_segments [a] (by intro s hs; simp at hs; subst hs; exact ha)
    a.length [] 0 (by have := List.length_pos.mpr ha.1; simp; omega)
  have hint : [47].intercalate [a] = a := by
    simp [List.intercalate, List.intersperse, List.flatten]
  rw [hint] at hseg
  obtain ⟨c, a2, rfl⟩ : ∃ c a2, a = c :: a2 := List.exists_cons_of_ne_nil ha.1
  have hc : c ≠ 47 := fun h => ha.2.1 (by simp [h])
  unfold Clean
  simp only [List.head?_cons, reduceCtorEq, if_false, Option.some.injEq, hc,
    decide_False, Bool.false_eq_true]
  rw [hseg]
  simp

theorem getLast?_append_singleton (l : GoString) (c : Nat) : (l ++ [c]).getLast? = some c := by
  simp

theorem addSlash_shape (rooted : Bool) (out : GoString)
    (hroot : rooted = true → out.head? = some 47) :
    addSlash rooted out = [] ∨ (addSlash rooted out).getLast? = some 47 := by
  unfold addSlash
  split
  · exact Or.inr (getLast?_append_singleton out 47)
  · rename_i h
    simp only [not_or, not_and, Decidable.not_not] at h
    cases rooted
    · left
      have := h.2 (by simp)
      exact List.length_eq_zero.mp this
    · right
      have hlen := h.1 rfl
      have hhead := hroot rfl
      rcases out with _ | ⟨c, _ | ⟨d, out⟩⟩
      · simp at hlen
      · simpa using hhead
      · simp at hlen

theorem cleanLoop_last_element (rooted : Bool) (fuel : Nat) (w out : GoString) (dotdot : Nat)
    (hw : IsPlainSegment w) (h : w.length ≤ fuel) :
    cleanLoop rooted fuel w out dotdot = addSlash rooted out ++ w := by
  have h2 := cleanLoop_step_element rooted fuel w [] out dotdot hw (Or.inl rfl) (by simpa using h)
  rw [List.append_nil] at h2
  rw [h2, cleanLoop_nil]

theorem Clean_rooted (p : GoString) :
    Clean (47 :: p) =
      if (cleanLoop true (p.length + 1) p [47] 1).length = 0 then [46]
      else cleanLoop true (p.length + 1) p [47] 1 := by
  simp [Clean]

theorem Clean_unrooted (c : Nat) (p : GoString) (hc : c ≠ 47) :
    Clean (c :: p) =
      if (cleanLoop false (p.length + 1) (c :: p) [] 0).length = 0 then [46]
      else cleanLoop false (p.length + 1) (c :: p) [] 0 := by
  simp [Clean, hc]

/-- The first call `path.Join(username, id)`: what precedes the id depends on
the user name only. -/
theorem Join_username_id (username : GoString) :
    ∃ X, (X = [] ∨ X.getLast? = some 47) ∧
      ∀ id, IsPlainSegment id → Join [username, id] = X ++ id := by
  rcases username with _ | ⟨c, u⟩
  · refine ⟨[], Or.inl rfl, ?_⟩
    intro id hid
    have hint : [47].intercalate [id] = id := by
      simp [List.intercalate, List.intersperse, List.flatten]
    unfold Join
    rw [List.dropWhile_cons_of_pos (by simp), List.dropWhile_cons_of_neg (by simpa using hid.1)]
    simp only [hint]
    simpa using Clean_one_segment id hid
  · have hint : ∀ id : GoString, [47].intercalate [c :: u, id] = c :: ((u ++ [47]) ++ id) := by
      intro id
      simp [List.intercalate, List.intersperse, List.flatten]
    by_cases hc : c = 47
    · subst hc
      obtain ⟨out2, dd2, hrun, hinv⟩ := cleanLoop_leading true (u ++ [47]).length (u ++ [47])
        (Nat.le_refl _) (Or.inr (getLast?_append_singleton u 47)) [47] 1
      obtain ⟨hhead, _⟩ := hinv rfl rfl (Nat.le_refl 1)
      refine ⟨addSlash true out2, addSlash_shape true out2 (fun _ => hhead), ?_⟩
      intro id hid
      have hpos := List.length_pos.mpr hid.1
      unfold Join
      rw [List.dropWhile_cons_of_neg (by simp)]
      simp only [hint]
      rw [Clean_rooted, hrun id _ (by omega),
        cleanLoop_last_element true _ id out2 dd2 hid (by simp; omega)]
      rw [if_neg]
      rw [List.length_append]
      omega
    · have hl : (c :: (u ++ [47])).getLast? = some 47 := by
        rw [← List.cons_append]
        exact getLast?_append_singleton (c :: u) 47
      obtain ⟨out2, dd2, hrun, _⟩ := cleanLoop_leading false (c :: (u ++ [47])).length
        (c :: (u ++ [47])) (Nat.le_refl _) (Or.inr hl) [] 0
      refine ⟨addSlash false out2, addSlash_shape false out2 (fun h => by cases h), ?_⟩
      intro id hid
      have hpos := List.length_pos.mpr hid.1
      unfold Join
      rw [List.dropWhile_cons_of_neg (by simp)]
      simp only [hint]
      rw [Clean_unrooted c _ hc, ← List.cons_append, hrun id _ (by simp),
        cleanLoop_last_element false _ id out2 dd2 hid (by simp; omega)]
      rw [if_neg]
      rw [List.length_append]
      omega

theorem addSlash_of_length (rooted : Bool) (Z : GoString)
    (h1 : rooted = true → Z.length ≠ 1) (h0 : rooted = false → Z.length ≠ 0) :
    addSlash rooted Z = Z ++ [47] := by
  unfold addSlash
  rw [if_pos]
  cases rooted
  · right
    exact ⟨rfl, h0 rfl⟩
  · left
    exact ⟨rfl, h1 rfl⟩

theorem addSlash_append_element (rooted : Bool) (out w : GoString) (hw : w ≠ [])
    (hroot : rooted = true → out ≠ []) :
    addSlash rooted (addSlash rooted out ++ w) = addSlash rooted out ++ w ++ [47] := by
  have hpos := List.length_pos.mpr hw
  have hlen : (addSlash rooted out ++ w).length = (addSlash rooted out).length + w.length :=
    List.length_append _ _
  have hroot2 : rooted = true → 0 < (addSlash rooted out).length := by
    intro hr
    have h0 := List.length_pos.mpr (hroot hr)
    unfold addSlash
    split
    · rw [List.length_append]
      omega
    · exact h0
  apply addSlash_of_length
  · intro hr
    have := hroot2 hr
    omega
  · intro _
    omega

/-- The second call `path.Join(record[1], name)`: what precedes the id depends
on what preceded it after the first call only. -/
theorem Join_record_name (X : GoString) (hX : X = [] ∨ X.getLast? = some 47) :
    ∃ Y, ∀ id seg, IsPlainSegment id → IsPlainSegment seg →
      Join [X ++ id, seg] = Y ++ id ++ 47 :: seg := by
  have hint : ∀ id seg : GoString, [47].intercalate [X ++ id, seg] = X ++ (id ++ 47 :: seg) := by
    intro id seg
    simp [List.intercalate, List.intersperse, List.flatten]
  have hjoin : ∀ id seg : GoString, IsPlainSegment id →
      Join [X ++ id, seg] = Clean (X ++ (id ++ 47 :: seg)) := by
    intro id seg hid
    unfold Join
    rw [List.dropWhile_cons_of_neg (by simp [hid.1])]
    simp only [hint]
  rcases X with _ | ⟨c, X2⟩
  · refine ⟨[], ?_⟩
    intro id seg hid hseg
    rw [hjoin id seg hid]
    simpa using Clean_two_segments id seg hid hseg
  · have hX2 : X2 = [] ∨ X2.getLast? = some 47 := by
      rcases X2 with _ | ⟨d, X3⟩
      · exact Or.inl rfl
      · right
        rcases hX with h | h
        · simp at h
        · simpa [List.getLast?_cons_cons] using h
    by_cases hc : c = 47
    · subst hc
      obtain ⟨out2, dd2, hrun, hinv⟩ := cleanLoop_leading true X2.length X2
        (Nat.le_refl _) hX2 [47] 1
      obtain ⟨hhead, _⟩ := hinv rfl rfl (Nat.le_refl 1)
      have hne : out2 ≠ [] := by
        intro h
        simp [h] at hhead
      refine ⟨addSlash true out2, ?_⟩
      intro id seg hid hseg
      have hpos := List.length_pos.mpr hid.1
      have hpos2 := List.length_pos.mpr hseg.1
      rw [hjoin id seg hid, List.cons_append, Clean_rooted, hrun _ _ (by omega),
        cleanLoop_step_element true _ id (47 :: seg) out2 dd2 hid (Or.inr rfl)
          (by simp; omega),
        cleanLoop_step_slash true _ seg _ _ (by simp; omega),
        cleanLoop_last_element true _ seg _ _ hseg (by simp; omega),
        addSlash_append_element true out2 id hid.1 (fun _ => hne)]
      rw [if_neg]
      · simp
      · simp only [List.length_append]
        omega
    · have hX' : (c :: X2) = [] ∨ (c :: X2).getLast? = some 47 := hX
      obtain ⟨out2, dd2, hrun, _⟩ := cleanLoop_leading false (c :: X2).length (c :: X2)
        (Nat.le_refl _) hX' [] 0
      refine ⟨addSlash false out2, ?_⟩
      intro id seg hid hseg
      have hpos := List.length_pos.mpr hid.1
      have hpos2 := List.length_pos.mpr hseg.1
      rw [hjoin id seg hid, List.cons_append, Clean_unrooted c _ hc, ← List.cons_append,
        hrun _ _ (by simp),
        cleanLoop_step_element false _ id (47 :: seg) out2 dd2 hid (Or.inr rfl)
          (by simp; omega),
        cleanLoop_step_slash false _ seg _ _ (by simp; omega),
        cleanLoop_last_element false _ seg _ _ hseg (by simp; omega),
        addSlash_append_element false out2 id hid.1 (fun h => by cases h)]
      rw [if_neg]
      · simp
      · simp only [List.length_append]
        omega

/-- The directory path of a sub-record: whatever the user name, it ends in the
record id, a slash and the sub-record element, after a part that depends on
the user name only. -/
theorem Join_username_id_name (username : GoString) :
    ∃ Y, ∀ id seg, IsPlainSegment id → IsPlainSegment seg →
      Join [Join [username, id], seg] = Y ++ id ++ 47 :: seg := by
  obtain ⟨X, hX, hinner⟩ := Join_username_id username
  obtain ⟨Y, houter⟩ := Join_record_name X hX
  refine ⟨Y, ?_⟩
  intro id seg hid hseg
  rw [hinner id hid]
  exact houter id seg hid hseg

/-! ## Formatting -/

theorem digitsValue_append_singleton (ds : GoString) (d : Nat) :
    digitsValue (ds ++ [d]) = 10 * digitsValue ds + (d - 48) := by
  simp [digitsValue, List.foldl_append]

theorem decimalLoop_spec : ∀ (fuel u : Nat) (acc : GoString), u < fuel →
    ∃ ds, decimalLoop fuel u acc = ds ++ acc ∧ digitsValue ds = u ∧ ds ≠ [] ∧
      ∀ b ∈ ds, 48 ≤ b ∧ b ≤ 57 := by
  intro fuel
  induction fuel with
  | zero => intro u acc h; omega
  | succ fuel ih =>
    intro u acc hu
    by_cases h10 : u < 10
    · refine ⟨[48 + u], by simp [decimalLoop, h10], by simp [digitsValue], by simp, ?_⟩
      intro b hb
      simp at hb
      omega
    · obtain ⟨ds, hds, hval, hne, hdig⟩ := ih (u / 10) ((48 + u % 10) :: acc) (by omega)
      refine ⟨ds ++ [48 + u % 10], by simp [decimalLoop, h10, hds], ?_, by simp, ?_⟩
      · rw [digitsValue_append_singleton, hval]
        omega
      · intro b hb
        rw [List.mem_append] at hb
        rcases hb with hb | hb
        · exact hdig b hb
        · simp at hb
          omega

theorem decimal_spec (u : Nat) :
    digitsValue (decimal u) = u ∧ decimal u ≠ [] ∧ ∀ b ∈ decimal u, 48 ≤ b ∧ b ≤ 57 := by
  obtain ⟨ds, hds, hval, hne, hdig⟩ := decimalLoop_spec (u + 1) u [] (by omega)
  rw [List.append_nil] at hds
  unfold decimal
  rw [hds]
  exact ⟨hval, hne, hdig⟩

theorem digitsValue_replicate_zero_append (k : Nat) (ds : GoString) :
    digitsValue (List.replicate k 48 ++ ds) = digitsValue ds := by
  induction k with
  | zero => simp
  | succ k ih =>
    unfold digitsValue at ih ⊢
    simpa [List.replicate_succ, List.foldl_cons] using ih

theorem fmt03d_value (index : Nat) : digitsValue (fmt03d index) = index := by
  unfold fmt03d
  rw [digitsValue_replicate_zero_append]
  exact (decimal_spec index).1

theorem fmt03d_digits (index : Nat) : ∀ b ∈ fmt03d index, 48 ≤ b ∧ b ≤ 57 := by
  intro b hb
  unfold fmt03d at hb
  rw [List.mem_append] at hb
  rcases hb with hb | hb
  · have := (List.mem_replicate.mp hb).2
    omega
  · exact (decimal_spec index).2.2 b hb

theorem fmt03d_ne_nil (index : Nat) : fmt03d index ≠ [] := by
  unfold fmt03d
  simp [(decimal_spec index).2.1]

theorem fmt03d_injective (i j : Nat) (h : fmt03d i = fmt03d j) : i = j := by
  rw [← fmt03d_value i, ← fmt03d_value j, h]

theorem decimalLoop_lt (fuel u : Nat) (acc : GoString) (h : u < 10) :
    decimalLoop (fuel + 1) u acc = (48 + u) :: acc := by
  simp [decimalLoop, h]

theorem decimalLoop_ge (fuel u : Nat) (acc : GoString) (h : ¬ u < 10) :
    decimalLoop (fuel + 1) u acc = decimalLoop fuel (u / 10) ((48 + u % 10) :: acc) := by
  simp only [decimalLoop, h, if_false]

/-- Three digits for an index below 1000. -/
theorem fmt03d_of_lt (index : Nat) (h : index < 1000) :
    fmt03d index = [48 + index / 100, 48 + index / 10 % 10, 48 + index % 10] := by
  by_cases h1 : index < 10
  · have hd : decimal index = [48 + index] := decimalLoop_lt index index [] h1
    rw [fmt03d, hd]
    have e1 : index / 100 = 0 := by omega
    have e2 : index / 10 % 10 = 0 := by omega
    have e3 : index % 10 = index := by omega
    simp [e1, e2, e3, List.replicate]
  · by_cases h2 : index < 100
    · have hd : decimal index = [48 + index / 10, 48 + index % 10] := by
        obtain ⟨k, rfl⟩ : ∃ k, index = k + 1 := ⟨index - 1, by omega⟩
        unfold decimal
        rw [decimalLoop_ge _ _ _ h1, decimalLoop_lt _ _ _ (by omega)]
      rw [fmt03d, hd]
      have e1 : index / 100 = 0 := by omega
      have e2 : index / 10 % 10 = index / 10 := by omega
      simp [e1, e2, List.replicate]
    · have hd : decimal index = [48 + index / 100, 48 + index / 10 % 10, 48 + index % 10] := by
        have h5 : index / 10 / 10 = index / 100 := by omega
        obtain ⟨k, rfl⟩ : ∃ k, index = k + 2 := ⟨index - 2, by omega⟩
        unfold decimal
        rw [decimalLoop_ge _ _ _ h1, decimalLoop_ge _ _ _ (by omega),
          decimalLoop_lt _ _ _ (by omega), h5]
      rw [fmt03d, hd]
      simp

theorem append_cons_inj_of_not_mem (c : Nat) :
    ∀ (a b x y : GoString), c ∉ a → c ∉ b → a ++ c :: x = b ++ c :: y → a = b ∧ x = y := by
  intro a
  induction a with
  | nil =>
    intro b x y _ hb h
    rcases b with _ | ⟨d, b⟩
    · simpa using h
    · simp at h
      exact absurd (by simp [h.1]) hb
  | cons e a ih =>
    intro b x y ha hb h
    rcases b with _ | ⟨d, b⟩
    · simp at h
      exact absurd (by simp [h.1]) ha
    · simp only [List.cons_append, List.cons.injEq] at h
      obtain ⟨rfl, h⟩ := h
      obtain ⟨rfl, rfl⟩ := ih b x y (fun hm => ha (by simp [hm])) (fun hm => hb (by simp [hm])) h
      exact ⟨rfl, rfl⟩

theorem SprintfIndexName_injective (i j : Nat) (n m : GoString)
    (h : SprintfIndexName i n = SprintfIndexName j m) : i = j ∧ n = m := by
  unfold SprintfIndexName at h
  simp only [List.append_assoc, List.singleton_append] at h
  have hi : 46 ∉ fmt03d i := fun hm => by have := fmt03d_digits i 46 hm; omega
  have hj : 46 ∉ fmt03d j := fun hm => by have := fmt03d_digits j 46 hm; omega
  obtain ⟨h1, h2⟩ := append_cons_inj_of_not_mem 46 _ _ _ _ hi hj h
  exact ⟨fmt03d_injective i j h1, h2⟩

theorem SprintfIndexName_plain (index : Nat) (name : GoString) (hname : 47 ∉ name) :
    IsPlainSegment (SprintfIndexName index name) := by
  obtain ⟨d, ds, hd⟩ := List.exists_cons_of_ne_nil (fmt03d_ne_nil index)
  have hdig := fmt03d_digits index
  have hd48 : 48 ≤ d := (hdig d (by simp [hd])).1
  unfold SprintfIndexName IsPlainSegment
  refine ⟨by simp, ?_, ?_, ?_⟩
  · simp only [List.mem_append, List.mem_singleton, not_or]
    refine ⟨⟨fun hm => ?_, by omega⟩, hname⟩
    have := hdig 47 hm
    omega
  · rw [hd]
    simp
  · rw [hd]
    simp
    omega

/-! ## The crawl -/

theorem eachFrom_append {α β : Type} (g : Nat → α → List β) (f : Nat → α → List β → List β)
    (hf : ∀ i x st, f i x st = st ++ g i x) :
    ∀ (xs : List α) (i : Nat) (st : List β),
      eachFrom f i xs st = st ++ (xs.enumFrom i).flatMap (fun p => g p.1 p.2) := by
  intro xs
  induction xs with
  | nil => intro i st; simp [eachFrom]
  | cons x xs ih =>
    intro i st
    simp [eachFrom, List.enumFrom, ih, hf, List.append_assoc]

theorem enumFrom_succ_flatMap {α β : Type} (g : Nat → α → List β) (h : α → List β)
    (hg : ∀ i x, g (i + 1) x = h x) :
    ∀ (xs : List α) (i : Nat),
      (xs.enumFrom (i + 1)).flatMap (fun p => g p.1 p.2) = xs.flatMap h := by
  intro xs
  induction xs with
  | nil => intro i; simp
  | cons x xs ih =>
    intro i
    simp [List.enumFrom, hg, ih]

theorem enumFrom_flatMap_snd {α β : Type} (h : α → List β) :
    ∀ (xs : List α) (i : Nat), (xs.enumFrom i).flatMap (fun p => h p.2) = xs.flatMap h := by
  intro xs
  induction xs with
  | nil => intro i; simp
  | cons x xs ih =>
    intro i
    simp [List.enumFrom, ih]

theorem flatMap_option_toList {α β : Type} (f : α → Option β) (xs : List α) :
    xs.flatMap (fun x => (f x).toList) = xs.filterMap f := by
  induction xs with
  | nil => simp
  | cons x xs ih =>
    cases hx : f x <;> simp [List.flatMap_cons, List.filterMap_cons, hx, ih]

theorem filterMap_flatMap {α β γ : Type} (f : α → List β) (g : β → Option γ) (xs : List α) :
    (xs.flatMap f).filterMap g = xs.flatMap (fun x => (f x).filterMap g) := by
  induction xs with
  | nil => simp
  | cons x xs ih => simp [List.flatMap_cons, List.filterMap_append, ih]

/-- The rows one table of the listing page contributes. -/
theorem each_listing_rows (username : GoString) (tab : List ListingRow) (records : List Pair) :
    Each tab (fun index tr records =>
      if index = 0 then records
      else
        match tr.seeHref with
        | some href => records ++ [(href, Join [username, tr.firstCell])]
        | none => records) records =
      records ++ (tab.drop 1).filterMap
        (fun tr => tr.seeHref.map (fun href => (href, Join [username, tr.firstCell]))) := by
  unfold Each
  rw [eachFrom_append
    (fun index (tr : ListingRow) =>
      if index = 0 then []
      else (tr.seeHref.map (fun href => (href, Join [username, tr.firstCell]))).toList)]
  · rcases tab with _ | ⟨hd, tl⟩
    · simp
    · simp only [List.enumFrom, List.flatMap_cons, if_true, List.nil_append, List.drop_succ_cons,
        List.drop_zero]
      have key := enumFrom_succ_flatMap
        (fun index (tr : ListingRow) =>
          if index = 0 then []
          else (tr.seeHref.map (fun href => (href, Join [username, tr.firstCell]))).toList)
        (fun tr : ListingRow =>
          (tr.seeHref.map (fun href => (href, Join [username, tr.firstCell]))).toList)
        (fun i x => by simp) tl 0
      beta_reduce at key
      rw [key, flatMap_option_toList]
  · intro i x st
    by_cases hi : i = 0
    · simp [hi]
    · cases hx : x.seeHref <;> simp [hi, hx]

theorem collectRecords_eq (username : GoString) (tabs : List (List ListingRow)) :
    collectRecords username tabs = listedRecords username tabs := by
  unfold collectRecords listedRecords Each
  rw [eachFrom_append
    (fun _ (tab : List ListingRow) => (tab.drop 1).filterMap
      (fun tr => tr.seeHref.map (fun href => (href, Join [username, tr.firstCell]))))]
  · have key := enumFrom_flatMap_snd
      (fun (tab : List ListingRow) => (tab.drop 1).filterMap
        (fun tr => tr.seeHref.map (fun href => (href, Join [username, tr.firstCell])))) tabs 0
    beta_reduce at key
    rw [List.nil_append, key]
    exact (filterMap_flatMap _ _ tabs).symm
  · intro i tab st
    exact each_listing_rows username tab st

theorem collectRecordDetails_eq (record : Pair) (rows : List RecordRow) (details : List Pair) :
    collectRecordDetails record rows details = details ++ recordDetails record.2 rows := by
  unfold collectRecordDetails recordDetails Each
  rw [eachFrom_append
    (fun index (tr : RecordRow) =>
      if index = 0 then []
      else (tr.lastCellHref.map
        (fun href => (href, Join [record.2, SprintfIndexName index tr.firstCell]))).toList)]
  · congr 1
    rcases rows with _ | ⟨hd, tl⟩
    · simp
    · simp only [List.enumFrom, List.flatMap_cons, if_true, List.nil_append,
        List.drop_succ_cons, List.drop_zero]
      rw [← flatMap_option_toList]
      apply List.flatMap_congr
      intro p hp
      have : p.1 ≠ 0 := by
        have := List.le_fst_of_mem_enumFrom hp
        omega
      simp [this]
  · intro i x st
    by_cases hi : i = 0
    · simp [hi]
    · cases hx : x.lastCellHref <;> simp [hi, hx]

theorem collectDetails_eq (site : Site) (records : List Pair) :
    collectDetails site records =
      records.flatMap (fun record =>
        match site.record record.1 with
        | Except.error _ => []
        | Except.ok rows => recordDetails record.2 rows) := by
  unfold collectDetails
  suffices h : ∀ (init : List Pair),
      records.foldl (fun details record =>
        match site.record record.1 with
        | Except.error _ => details
        | Except.ok rows => collectRecordDetails record rows details) init =
      init ++ records.flatMap (fun record =>
        match site.record record.1 with
        | Except.error _ => []
        | Except.ok rows => recordDetails record.2 rows) by
    simpa using h []
  induction records with
  | nil => intro init; simp
  | cons r rs ih =>
    intro init
    rw [List.foldl_cons, ih, List.flatMap_cons]
    cases hr : site.record r.1 <;> simp [collectRecordDetails_eq, List.append_assoc]

theorem AddJob_jobs_eq (site : Site) (details : List Pair) :
    (AddJob site details).1 =
      details.filterMap (fun detail =>
        match site.detail detail.1 with
        | Except.ok (some file) => some (file, detail.2 ++ ascii ".pdf")
        | _ => none) := by
  unfold AddJob
  suffices h : ∀ (init : List Pair × List GoError),
      (details.foldl (fun (st : List Pair × List GoError) detail =>
        match site.detail detail.1 with
        | Except.error err => (st.1, st.2 ++ [err])
        | Except.ok (some file) => (st.1 ++ [(file, detail.2 ++ ascii ".pdf")], st.2)
        | Except.ok none => st) init).1 =
      init.1 ++ details.filterMap (fun detail =>
        match site.detail detail.1 with
        | Except.ok (some file) => some (file, detail.2 ++ ascii ".pdf")
        | _ => none) by
    simpa using h ([], [])
  induction details with
  | nil => intro init; simp
  | cons d ds ih =>
    intro init
    rw [List.foldl_cons, ih]
    rcases hd : site.detail d.1 with e | (_ | file) <;> simp [List.filterMap_cons, hd]

/-! ## Local paths of the jobs -/

theorem Join_detail_path (username id name : GoString) (index : Nat)
    (hu : IsPlainSegment username) (hid : IsPlainSegment id) (hname : 47 ∉ name) :
    Join [Join [username, id], SprintfIndexName index name] =
      (username ++ 47 :: id) ++ 47 :: SprintfIndexName index name := by
  rw [Join_two_plain username id hu hid]
  exact Join_three_plain username id _ hu hid (SprintfIndexName_plain index name hname)

/-- Whatever the user name, the directory path of a sub-record determines the
record id, the row index and the sub-record name, for plain ids and names
without a slash. -/
theorem Join_detail_path_injective (username id id2 name name2 : GoString) (i j : Nat)
    (hid : IsPlainSegment id) (hid2 : IsPlainSegment id2)
    (hname : 47 ∉ name) (hname2 : 47 ∉ name2)
    (h : Join [Join [username, id], SprintfIndexName i name] =
      Join [Join [username, id2], SprintfIndexName j name2]) :
    id = id2 ∧ i = j ∧ name = name2 := by
  obtain ⟨Y, hY⟩ := Join_username_id_name username
  rw [hY id _ hid (SprintfIndexName_plain i name hname),
    hY id2 _ hid2 (SprintfIndexName_plain j name2 hname2)] at h
  simp only [List.append_assoc] at h
  have h1 := (List.append_right_inj Y).mp h
  obtain ⟨hidEq, hseg⟩ := append_cons_inj_of_not_mem 47 _ _ _ _ hid.2.1 hid2.2.1 h1
  obtain ⟨hi, hn⟩ := SprintfIndexName_injective i j name name2 hseg
  exact ⟨hidEq, hi, hn⟩

theorem enumFrom_pairwise_fst {α : Type} (xs : List α) (n : Nat) :
    (xs.enumFrom n).Pairwise (fun a b => a.1 ≠ b.1) := by
  induction xs generalizing n with
  | nil => simp
  | cons x xs ih =>
    rw [List.enumFrom_cons, List.pairwise_cons]
    refine ⟨?_, ih (n + 1)⟩
    intro b hb
    have := List.le_fst_of_mem_enumFrom hb
    simp only [ne_eq]
    omega

theorem mem_drop_one_enumFrom {α : Type} (xs : List α) (p : Nat × α)
    (hp : p ∈ (xs.enumFrom 0).drop 1) : p.2 ∈ xs.drop 1 := by
  rcases xs with _ | ⟨x, xs⟩
  · simp at hp
  · simp only [List.enumFrom_cons, List.drop_succ_cons, List.drop_zero] at hp ⊢
    have := List.mem_map_of_mem Prod.snd hp
    rwa [List.enumFrom_map_snd] at this

theorem recordDetails_paths_nodup (username id : GoString) (rows : List RecordRow)
    (hid : IsPlainSegment id)
    (hnames : ∀ row ∈ rows.drop 1, row.lastCellHref.isSome → 47 ∉ row.firstCell) :
    ((recordDetails (Join [username, id]) rows).map Prod.snd).Nodup := by
  unfold recordDetails
  rw [List.map_filterMap, List.Nodup, List.pairwise_filterMap]
  refine List.Pairwise.imp_of_mem ?_
    (List.Pairwise.sublist (List.drop_sublist 1 _) (enumFrom_pairwise_fst rows 0))
  intro a b ha hb hab x hx y hy hxy
  subst hxy
  rcases hah : a.2.lastCellHref with _ | h1
  · simp [hah] at hx
  rcases hbh : b.2.lastCellHref with _ | h2
  · simp [hbh] at hy
  simp only [hah, hbh, Option.map_some', Option.mem_def, Option.some.injEq] at hx hy
  have hna := hnames a.2 (mem_drop_one_enumFrom rows a ha) (by simp [hah])
  have hnb := hnames b.2 (mem_drop_one_enumFrom rows b hb) (by simp [hbh])
  have := Join_detail_path_injective username id id a.2.firstCell b.2.firstCell a.1 b.1
    hid hid hna hnb (hx.trans hy.symm)
  exact hab this.2.1

theorem mem_recordDetails_paths (recordPath : GoString) (rows : List RecordRow) (x : GoString)
    (hx : x ∈ (recordDetails recordPath rows).map Prod.snd) :
    ∃ i, ∃ row ∈ rows.drop 1, row.lastCellHref.isSome ∧
      x = Join [recordPath, SprintfIndexName i row.firstCell] := by
  unfold recordDetails at hx
  rw [List.map_filterMap, List.mem_filterMap] at hx
  obtain ⟨a, ha, hax⟩ := hx
  rcases hah : a.2.lastCellHref with _ | h1
  · simp [hah] at hax
  · simp only [hah, Option.map_some', Option.some.injEq] at hax
    exact ⟨a.1, a.2, mem_drop_one_enumFrom rows a ha, by simp [hah], hax.symm⟩

theorem jobs_paths_sublist (site : Site) (details : List Pair) :
    ((details.filterMap (fun detail =>
        match site.detail detail.1 with
        | Except.ok (some file) => some (file, detail.2 ++ ascii ".pdf")
        | _ => none)).map Prod.snd).Sublist
      ((details.map Prod.snd).map (fun p => p ++ ascii ".pdf")) := by
  induction details with
  | nil => simp
  | cons d ds ih =>
    rcases hd : site.detail d.1 with e | (_ | file)
    · simp only [List.filterMap_cons, hd, List.map_cons]
      exact List.Sublist.cons _ ih
    · simp only [List.filterMap_cons, hd, List.map_cons]
      exact List.Sublist.cons _ ih
    · simp only [List.filterMap_cons, hd, List.map_cons]
      exact List.Sublist.cons₂ _ ih

theorem pairwise_of_filter {α : Type} (R : α → α → Prop) (p : α → Bool) (l : List α)
    (h : (l.filter p).Pairwise R) :
    l.Pairwise (fun x y => p x = true → p y = true → R x y) := by
  induction l with
  | nil => simp
  | cons a l ih =>
    rw [List.pairwise_cons]
    by_cases hpa : p a = true
    · rw [List.filter_cons_of_pos hpa, List.pairwise_cons] at h
      exact ⟨fun b hb _ hpb => h.1 b (List.mem_filter.mpr ⟨hb, hpb⟩), ih h.2⟩
    · rw [List.filter_cons_of_neg hpa] at h
      exact ⟨fun b _ hpa2 => absurd hpa2 hpa, ih h⟩

/-- The paths of the sub-records of one record, whatever its page holds. -/
theorem mem_record_paths (site : Site) (record : Pair) (x : GoString)
    (hx : x ∈ List.map Prod.snd
      (match site.record record.1 with
        | Except.error _ => []
        | Except.ok rows => recordDetails record.2 rows)) :
    ∃ rows, site.record record.1 = Except.ok rows ∧
      x ∈ (recordDetails record.2 rows).map Prod.snd := by
  rcases hr : site.record record.1 with e | rows
  · simp [hr] at hx
  · rw [hr] at hx
    exact ⟨rows, rfl, hx⟩

theorem details_paths_nodup (site : Site) (username : GoString)
    (tabs : List (List ListingRow))
    (hids : ∀ tr ∈ linkedRows tabs, IsPlainSegment tr.firstCell)
    (hdistinct : ((linkedRows tabs).map ListingRow.firstCell).Nodup)
    (hnames : ∀ href rows, site.record href = Except.ok rows →
      ∀ row ∈ rows.drop 1, row.lastCellHref.isSome → 47 ∉ row.firstCell) :
    ((collectDetails site (collectRecords username tabs)).map Prod.snd).Nodup := by
  rw [collectDetails_eq, collectRecords_eq, List.map_flatMap, List.nodup_flatMap]
  constructor
  · intro record hrec
    unfold listedRecords at hrec
    rw [List.mem_filterMap] at hrec
    obtain ⟨tr, htr, hmap⟩ := hrec
    rcases hh : tr.seeHref with _ | href
    · simp [hh] at hmap
    simp only [hh, Option.map_some', Option.some.injEq] at hmap
    subst hmap
    have hlinked : tr ∈ linkedRows tabs := by
      unfold linkedRows
      exact List.mem_filter.mpr ⟨htr, by simp [hh]⟩
    simp only
    rcases hr : site.record href with e | rows
    · simp
    · exact recordDetails_paths_nodup username tr.firstCell rows (hids tr hlinked)
        (hnames href rows hr)
  · unfold listedRecords
    rw [List.pairwise_filterMap]
    unfold linkedRows at hdistinct hids
    rw [List.Nodup, List.pairwise_map] at hdistinct
    have hdistinct := pairwise_of_filter _ _ _ hdistinct
    refine List.Pairwise.imp_of_mem ?_ hdistinct
    intro a b ha hb hab r hr r2 hr2
    rcases hah : a.seeHref with _ | h1
    · simp [hah] at hr
    rcases hbh : b.seeHref with _ | h2
    · simp [hbh] at hr2
    simp only [hah, hbh, Option.map_some', Option.mem_def, Option.some.injEq] at hr hr2
    subst hr
    subst hr2
    have hne := hab (by simp [hah]) (by simp [hbh])
    have hida := hids a (List.mem_filter.mpr ⟨ha, by simp [hah]⟩)
    have hidb := hids b (List.mem_filter.mpr ⟨hb, by simp [hbh]⟩)
    rw [Function.onFun, List.disjoint_left]
    intro x hxa hxb
    obtain ⟨rows, hrows, hx⟩ := mem_record_paths site _ x hxa
    obtain ⟨rows2, hrows2, hx2⟩ := mem_record_paths site _ x hxb
    obtain ⟨i, row, hrow, hlink, hxi⟩ := mem_recordDetails_paths _ rows x hx
    obtain ⟨j, row2, hrow2, hlink2, hxj⟩ := mem_recordDetails_paths _ rows2 x hx2
    have := Join_detail_path_injective username a.firstCell b.firstCell row.firstCell
      row2.firstCell i j hida hidb (hnames _ rows hrows row hrow hlink)
      (hnames _ rows2 hrows2 row2 hrow2 hlink2) (hxi.symm.trans hxj)
    exact hne this.1

theorem mem_recordDetails (recordPath : GoString) (rows : List RecordRow) (d : Pair)
    (hd : d ∈ recordDetails recordPath rows) :
    ∃ i row href, 1 ≤ i ∧ rows[i]? = some row ∧ row.lastCellHref = some href ∧
      d = (href, Join [recordPath, SprintfIndexName i row.firstCell]) := by
  unfold recordDetails at hd
  rw [List.mem_filterMap] at hd
  obtain ⟨a, ha, had⟩ := hd
  rcases hah : a.2.lastCellHref with _ | href
  · simp [hah] at had
  simp only [hah, Option.map_some', Option.some.injEq] at had
  have hmem : (a.1, a.2) ∈ rows.enumFrom 0 := List.mem_of_mem_drop ha
  have hget := (List.mk_mem_enumFrom_iff_le_and_getElem?_sub.mp hmem).2
  have hpos : 1 ≤ a.1 := by
    rcases rows with _ | ⟨x, xs⟩
    · simp at ha
    · simp only [List.enumFrom_cons, List.drop_succ_cons, List.drop_zero] at ha
      have := List.le_fst_of_mem_enumFrom ha
      omega
  exact ⟨a.1, a.2, href, hpos, by simpa using hget, hah, had.symm⟩

/-- Every job the crawl emits belongs to a listed record and to a row, other
than the first, of that record's page, and its local path is the one
`jobLocalPath` composes. -/
theorem mem_mainJobs (site : Site) (username : GoString) (job : Pair)
    (hjob : job ∈ mainJobs site username) :
    ∃ tabs tr href rows i row detailHref,
      site.listing = Except.ok tabs ∧ tr ∈ linkedRows tabs ∧ tr.seeHref = some href ∧
      site.record href = Except.ok rows ∧ 1 ≤ i ∧ rows[i]? = some row ∧
      row.lastCellHref = some detailHref ∧
      site.detail detailHref = Except.ok (some job.1) ∧
      job.2 = jobLocalPath username tr.firstCell i row.firstCell := by
  unfold mainJobs at hjob
  rcases hl : site.listing with e | tabs
  · simp [hl] at hjob
  rw [hl] at hjob
  simp only at hjob
  rw [AddJob_jobs_eq, List.mem_filterMap] at hjob
  obtain ⟨detail, hdetail, hfile⟩ := hjob
  rcases hdt : site.detail detail.1 with e | (_ | file)
  · simp [hdt] at hfile
  · simp [hdt] at hfile
  simp only [hdt, Option.some.injEq] at hfile
  rw [collectDetails_eq, List.mem_flatMap] at hdetail
  obtain ⟨record, hrecord, hdet⟩ := hdetail
  rcases hr : site.record record.1 with e | rows
  · simp [hr] at hdet
  rw [hr] at hdet
  simp only at hdet
  obtain ⟨i, row, dhref, hi, hrow, hlink, hd⟩ := mem_recordDetails record.2 rows detail hdet
  rw [collectRecords_eq, listedRecords, List.mem_filterMap] at hrecord
  obtain ⟨tr, htr, hmap⟩ := hrecord
  rcases hh : tr.seeHref with _ | href
  · simp [hh] at hmap
  simp only [hh, Option.map_some', Option.some.injEq] at hmap
  subst hmap
  subst hd
  refine ⟨tabs, tr, href, rows, i, row, dhref, rfl, ?_, hh, hr, hi, hrow, hlink, ?_, ?_⟩
  · exact List.mem_filter.mpr ⟨htr, by simp [hh]⟩
  · rw [← hfile]
    exact hdt
  · rw [← hfile]
    rfl

/-! ## The file system -/

/-- Whatever exists lies in a directory that exists. -/
theorem lookup_parent (fs : FileSystem) (p : GoString) (e : Entry)
    (h : fs.lookup p = some e) : fs.lookup (Dir p) = some Entry.dir := by
  unfold FileSystem.lookup at h ⊢
  by_cases h1 : p = [46]
  · subst h1
    have : Dir [46] = [46] := by decide
    rw [this]
    simp [lookupIn]
  · by_cases h2 : p = [47]
    · subst h2
      have : Dir [47] = [47] := by decide
      rw [this]
      simp [lookupIn]
    · unfold lookupIn at h
      rw [if_neg (by simp [h1, h2])] at h
      exact fs.parentIsDir p e h

/-! ## Claims about the crawl and the download -/

/-- C8 as stated fails: the record is paired with `path.Join(username, id)`,
which is not always `username/id`.  For an empty record id it is `u` and not
`u/`; for the id `7/` it is `u/7`; and for the user name `u/` and the id `7`
it is `u/7` and not `u//7`. -/
theorem collectRecords_not_literal :
    collectRecords (ascii "u")
        [[headerRow, { seeHref := some (ascii "/r1"), firstCell := ascii "" }]] =
        [(ascii "/r1", ascii "u")] ∧
      collectRecords (ascii "u")
        [[headerRow, { seeHref := some (ascii "/r1"), firstCell := ascii "" }]] ≠
        [(ascii "/r1", ascii "u" ++ ascii "/" ++ ascii "")] ∧
      collectRecords (ascii "u")
        [[headerRow, { seeHref := some (ascii "/r1"), firstCell := ascii "7/" }]] =
        [(ascii "/r1", ascii "u/7")] ∧
      collectRecords (ascii "u/")
        [[headerRow, { seeHref := some (ascii "/r1"), firstCell := ascii "7" }]] =
        [(ascii "/r1", ascii "u/7")] := by
  decide

/-- C8, amended: the records `main` collects from a listing page are the rows
of each table other than its first (header) row that carry a detail link, in
document order, each paired with `path.Join(username, id)`; when the user name
and the ids of those rows are plain path elements the path is `username/id` as
written; a table with a header row and three data rows of which the second has
no link gives the two records of the first and the third. -/
theorem collectRecords_listed (username : GoString) (tabs : List (List ListingRow)) :
    collectRecords username tabs =
        (tabs.flatMap (fun tab => tab.drop 1)).filterMap
          (fun tr => tr.seeHref.map (fun href => (href, Join [username, tr.firstCell]))) ∧
      (IsPlainSegment username → (∀ tr ∈ linkedRows tabs, IsPlainSegment tr.firstCell) →
        collectRecords username tabs =
          (tabs.flatMap (fun tab => tab.drop 1)).filterMap
            (fun tr => tr.seeHref.map
              (fun href => (href, username ++ ascii "/" ++ tr.firstCell)))) ∧
      (∀ (header r1 r2 r3 : ListingRow) (h1 h3 : GoString),
        r1.seeHref = some h1 → r2.seeHref = none → r3.seeHref = some h3 →
        collectRecords username [[header, r1, r2, r3]] =
          [(h1, Join [username, r1.firstCell]), (h3, Join [username, r3.firstCell])]) := by
  refine ⟨collectRecords_eq username tabs, ?_, ?_⟩
  · intro hu hids
    rw [collectRecords_eq, listedRecords]
    apply List.filterMap_congr
    intro tr htr
    rcases hh : tr.seeHref with _ | href
    · rfl
    · have hplain := hids tr (List.mem_filter.mpr ⟨htr, by simp [hh]⟩)
      have h1 : ascii "/" = [47] := by decide
      simp only [Option.map_some']
      rw [Join_two_plain username tr.firstCell hu hplain, h1]
      simp
  · intro header r1 r2 r3 h1 h3 e1 e2 e3
    rw [collectRecords_eq]
    simp [listedRecords, e1, e2, e3]

/-- Witness for C8: a header row and three data rows with the plain ids `1`,
`2`, `3`, the second without a link, for the user `u`. -/
theorem collectRecords_listed_witness :
    collectRecords (ascii "u")
        [[headerRow,
          { seeHref := some (ascii "/r1"), firstCell := ascii "1" },
          { seeHref := none, firstCell := ascii "2" },
          { seeHref := some (ascii "/r3"), firstCell := ascii "3" }]] =
        ([[headerRow,
          { seeHref := some (ascii "/r1"), firstCell := ascii "1" },
          { seeHref := none, firstCell := ascii "2" },
          { seeHref := some (ascii "/r3"), firstCell := ascii "3" }]].flatMap
            (fun tab => tab.drop 1)).filterMap
          (fun tr => tr.seeHref.map
            (fun href => (href, ascii "u" ++ ascii "/" ++ tr.firstCell))) ∧
      collectRecords (ascii "u")
        [[headerRow,
          { seeHref := some (ascii "/r1"), firstCell := ascii "1" },
          { seeHref := none, firstCell := ascii "2" },
          { seeHref := some (ascii "/r3"), firstCell := ascii "3" }]] =
        [(ascii "/r1", Join [ascii "u", ascii "1"]),
          (ascii "/r3", Join [ascii "u", ascii "3"])] :=
  ⟨(collectRecords_listed (ascii "u")
      [[headerRow,
        { seeHref := some (ascii "/r1"), firstCell := ascii "1" },
        { seeHref := none, firstCell := ascii "2" },
        { seeHref := some (ascii "/r3"), firstCell := ascii "3" }]]).2.1
      (by decide) (by decide),
    (collectRecords_listed (ascii "u") []).2.2 headerRow
      { seeHref := some (ascii "/r1"), firstCell := ascii "1" }
      { seeHref := none, firstCell := ascii "2" }
      { seeHref := some (ascii "/r3"), firstCell := ascii "3" }
      (ascii "/r1") (ascii "/r3") rfl rfl rfl⟩

/-- C6 as stated fails: `path.Join` cleans what it joins and `%03d` is a
minimum width.  For an empty record id the element is dropped, so the path is
`u/001.n.pdf` and not `u//001.n.pdf`; for the user name `u/` the doubled slash
is removed; for the name `a/../b` the index is cleaned away; and for the row
index 1000 the index is written with four digits. -/
theorem jobLocalPath_not_literal :
    jobLocalPath (ascii "u") (ascii "") 1 (ascii "n") = ascii "u/001.n.pdf" ∧
      jobLocalPath (ascii "u") (ascii "") 1 (ascii "n") ≠
        ascii "u" ++ ascii "/" ++ ascii "" ++ ascii "/" ++ ascii "001" ++ ascii "." ++
          ascii "n" ++ ascii ".pdf" ∧
      jobLocalPath (ascii "u/") (ascii "7") 1 (ascii "n") = ascii "u/7/001.n.pdf" ∧
      jobLocalPath (ascii "u") (ascii "7") 1 (ascii "a/../b") = ascii "u/7/b.pdf" ∧
      jobLocalPath (ascii "u") (ascii "7") 1000 (ascii "n") = ascii "u/7/1000.n.pdf" := by
  decide

/-- C6, amended: for a user name and a record id that are plain path elements
(not empty, without a slash, neither `.` nor `..`), a sub-record name without
a slash and a row index up to 999, the local path of the job is
`username/id/DDD.name.pdf` with `DDD` the three decimal digits of the index. -/
theorem jobLocalPath_plain (username id name : GoString) (index : Nat)
    (hu : IsPlainSegment username) (hid : IsPlainSegment id) (hname : 47 ∉ name)
    (hindex : index ≤ 999) :
    jobLocalPath username id index name =
      username ++ ascii "/" ++ id ++ ascii "/" ++
        [48 + index / 100, 48 + index / 10 % 10, 48 + index % 10] ++ ascii "." ++ name ++
        ascii ".pdf" := by
  unfold jobLocalPath
  rw [Join_detail_path username id name index hu hid hname, SprintfIndexName,
    fmt03d_of_lt index (by omega)]
  have h1 : ascii "/" = [47] := by decide
  have h2 : ascii "." = [46] := by decide
  rw [h1, h2]
  simp

/-- Witness for C6: user `u`, record `7`, row 1, name `n`. -/
theorem jobLocalPath_plain_witness :
    jobLocalPath (ascii "u") (ascii "7") 1 (ascii "n") =
      ascii "u" ++ ascii "/" ++ ascii "7" ++ ascii "/" ++
        [48 + 1 / 100, 48 + 1 / 10 % 10, 48 + 1 % 10] ++ ascii "." ++ ascii "n" ++
        ascii ".pdf" :=
  jobLocalPath_plain (ascii "u") (ascii "7") (ascii "n") 1 (by decide) (by decide) (by decide)
    (by decide)

/-- C7 as stated fails: with the pairwise distinct record ids `7` and `7/`
the two jobs of the crawl get the same local path; so do the jobs of the
records with an empty id and with the id `.`, and the jobs of the sub-records
named `/../002.b` and `b` of a single record. -/
theorem mainJobs_paths_collide :
    ((linkedRows listingWithSlashId).map ListingRow.firstCell).Nodup ∧
      mainJobs siteWithSlashId (ascii "u") =
        [(ascii "http://files/r1/d", ascii "u/7/001.n.pdf"),
          (ascii "http://files/r2/d", ascii "u/7/001.n.pdf")] ∧
      ((linkedRows listingWithDotId).map ListingRow.firstCell).Nodup ∧
      mainJobs siteWithDotId (ascii "u") =
        [(ascii "http://files/r1/d", ascii "u/001.n.pdf"),
          (ascii "http://files/r2/d", ascii "u/001.n.pdf")] ∧
      ((linkedRows listingWithOneRecord).map ListingRow.firstCell).Nodup ∧
      mainJobs siteWithSlashName (ascii "u") =
        [(ascii "http://files/d1", ascii "u/7/002.b.pdf"),
          (ascii "http://files/d2", ascii "u/7/002.b.pdf")] := by
  decide

/-- C7, amended: when the ids of the listed records are plain path elements
(not empty, without a slash, neither `.` nor `..`) and pairwise distinct, and
no sub-record name holds a slash, the jobs the producer emits have pairwise
different local paths, whatever the user name. -/
theorem mainJobs_paths_nodup (site : Site) (username : GoString)
    (tabs : List (List ListingRow)) (hlisting : site.listing = Except.ok tabs)
    (hids : ∀ tr ∈ linkedRows tabs, IsPlainSegment tr.firstCell)
    (hdistinct : ((linkedRows tabs).map ListingRow.firstCell).Nodup)
    (hnames : ∀ href rows, site.record href = Except.ok rows →
      ∀ row ∈ rows.drop 1, row.lastCellHref.isSome → 47 ∉ row.firstCell) :
    ((mainJobs site username).map Prod.snd).Nodup := by
  unfold mainJobs
  rw [hlisting]
  simp only
  rw [AddJob_jobs_eq]
  refine List.Nodup.sublist (jobs_paths_sublist site _) ?_
  exact List.Nodup.map (List.append_left_injective _)
    (details_paths_nodup site username tabs hids hdistinct hnames)

/-- Witness for C7: one record `7` with the sub-records `a` and `b`. -/
theorem mainJobs_paths_nodup_witness :
    ((mainJobs sitePlain (ascii "u")).map Prod.snd).Nodup :=
  mainJobs_paths_nodup sitePlain (ascii "u") listingWithOneRecord rfl
    (by decide) (by decide)
    (by
      intro href rows hrows row hrow _
      have hr : rows = [{ lastCellHref := none, firstCell := ascii "name" },
          { lastCellHref := some (ascii "/d1"), firstCell := ascii "a" },
          { lastCellHref := some (ascii "/d2"), firstCell := ascii "b" }] := by
        simp only [sitePlain, Except.ok.injEq] at hrows
        exact hrows.symm
      subst hr
      simp only [List.drop_succ_cons, List.drop_zero, List.mem_cons, List.mem_singleton,
        List.not_mem_nil, or_false] at hrow
      rcases hrow with rfl | rfl <;> decide)

/-- C4 as stated fails: with the file `u/f.pdf` in place and a remote that
cannot be reached, `download` returns 0 bytes and the error of the GET, not
the sentinel -1 with a nil error. -/
theorem download_existing_unreachable :
    fsWithFile.lookup (ascii "u/f.pdf") = some (Entry.file [1, 2, 3]) ∧
      (download getUnreachable fsWithFile (ascii "http://files/d1") (ascii "u/f.pdf")).written
        = 0 ∧
      (download getUnreachable fsWithFile (ascii "http://files/d1") (ascii "u/f.pdf")).err
        = some "connection refused" := by
  decide

/-- C4, amended: when something already exists at the local path, `download`
first issues the GET; if the GET succeeds it returns -1 with a nil error after
the GET, `MkdirAll` and `Stat` only (no file is created and no byte of the
body is copied) and leaves the file system as it was; if the GET fails it
returns 0 with the error of the GET and also leaves the file system as it
was. -/
theorem download_existing (get : GoString → Except GoError Response) (fs : FileSystem)
    (remote localPath : GoString) (entry : Entry)
    (hexists : fs.lookup localPath = some entry) :
    (∀ resp, get remote = Except.ok resp →
        (download get fs remote localPath).written = -1 ∧
        (download get fs remote localPath).err = none ∧
        (download get fs remote localPath).fs = fs ∧
        (download get fs remote localPath).events =
          [DownloadEvent.httpGet remote, DownloadEvent.mkdirAll (Dir localPath),
            DownloadEvent.stat localPath]) ∧
      (∀ e, get remote = Except.error e →
        (download get fs remote localPath).written = 0 ∧
        (download get fs remote localPath).err = some e ∧
        (download get fs remote localPath).fs = fs ∧
        (download get fs remote localPath).events = [DownloadEvent.httpGet remote]) := by
  constructor
  · intro resp hget
    have hdir : fs.lookup (Dir localPath) = some Entry.dir :=
      lookup_parent fs localPath entry hexists
    have hmk : MkdirAll fs (Dir localPath) = (fs, none) := by
      simp [MkdirAll, MkdirAllLoop, hdir]
    have hstat : Stat fs localPath = none := by
      simp [Stat, hexists]
    simp [download, hget, hmk, hstat]
  · intro e hget
    simp [download, hget]

/-- Witness for C4: the file `u/f.pdf` exists in the directory `u` and the
remote serves four bytes. -/
theorem download_existing_witness :
    (download getFourBytes fsWithFile (ascii "http://files/d1") (ascii "u/f.pdf")).written
        = -1 ∧
      (download getFourBytes fsWithFile (ascii "http://files/d1") (ascii "u/f.pdf")).err
        = none ∧
      (download getFourBytes fsWithFile (ascii "http://files/d1") (ascii "u/f.pdf")).fs
        = fsWithFile ∧
      (download getFourBytes fsWithFile (ascii "http://files/d1") (ascii "u/f.pdf")).events =
        [DownloadEvent.httpGet (ascii "http://files/d1"),
          DownloadEvent.mkdirAll (Dir (ascii "u/f.pdf")),
          DownloadEvent.stat (ascii "u/f.pdf")] :=
  (download_existing getFourBytes fsWithFile (ascii "http://files/d1") (ascii "u/f.pdf")
    (Entry.file [1, 2, 3]) (by decide)).1
    { Cookies := [], Body := [9, 9, 9, 9], BodyErr := none } rfl

end Hyrpdf
